import Mathlib

/-
Verification of the coordinate subsystem of the podpac repository.

The 1-d coordinate classes (`SingleCoord`, `GridCoord`, `UniformGridCoord`)
and the multi-dimensional `Coordinate` container are embedded from
src/podpac/core/coordinate.py.  Machine floats are modelled as exact
rationals (every concrete input used below is exactly representable in
float64, and the arithmetic performed on them there is exact); numpy
helpers (`arange`, `linspace`, `nanmin`, `nanmax`) are modelled by the
corresponding exact-rational list functions; fallible constructors and
methods return `Except String`; python's in-place mutation of the `bounds`
argument in `UniformGridCoord.intersect_bounds` is modelled by returning
the final state of that argument alongside the result.
-/

namespace Podpac

/-- Python list slice `l[a:b]` for integer endpoints `a, b ≥ 0` (the
intersect code only slices with clamped nonnegative endpoints). -/
def pySlice (l : List ℚ) (a b : ℤ) : List ℚ :=
  (l.take b.toNat).drop a.toNat

/-- `np.arange(a, b, s)` over exact rationals: numpy produces
`max(0, ceil((b - a) / s))` elements `a, a + s, a + 2s, ...`. -/
def npArange (a b s : ℚ) : List ℚ :=
  (List.range (max 0 ⌈(b - a) / s⌉).toNat).map (fun k => a + (k : ℚ) * s)

/-- `np.linspace(a, b, n)` over exact rationals: `n` evenly spaced samples
including both endpoints (`n = 1` gives `[a]`, `n ≤ 0` gives `[]`). -/
def npLinspace (a b : ℚ) (n : ℤ) : List ℚ :=
  if n ≤ 1 then (List.range n.toNat).map (fun _ => a)
  else (List.range n.toNat).map (fun k => a + (k : ℚ) * ((b - a) / ((n : ℚ) - 1)))

/-- `np.nanmin` of a 1-d array (rationals have no NaN entries). -/
def npMin (l : List ℚ) : ℚ := l.foldl min (l.headD 0)

/-- `np.nanmax` of a 1-d array (rationals have no NaN entries). -/
def npMax (l : List ℚ) : ℚ := l.foldl max (l.headD 0)

/-- `np.sqrt(np.finfo(np.float32).eps)`: the float32 square root of the
float32 machine epsilon `2 ^ (-23)`; the correctly rounded 24-bit result is
the dyadic rational `11863283 / 2 ^ 35`. -/
def sqrtEpsFloat32 : ℚ := 11863283 / 2 ^ 35

/-- `SingleCoord`: a single numeric coordinate (coordinate.py lines
194-267).  `coords` is the validated scalar value; `units` is the only
trait besides `coords` that the intersect code reads. -/
structure SingleCoord where
  coords : ℚ
  units : Option String := none
deriving DecidableEq, Repr

/-- `SingleCoord.delta` (numeric branch): the arbitrary half-width
`np.sqrt(np.finfo(np.float32).eps)`. -/
def SingleCoord.delta (_ : SingleCoord) : ℚ := sqrtEpsFloat32

/-- `SingleCoord.bounds`: `np.array([coords - delta, coords + delta])`. -/
def SingleCoord.bounds (c : SingleCoord) : ℚ × ℚ :=
  (c.coords - c.delta, c.coords + c.delta)

/-- `SingleCoord.coordinates`: `np.atleast_1d(coords)`. -/
def SingleCoord.coordinates (c : SingleCoord) : List ℚ := [c.coords]

/-- `SingleCoord.size` is always 1. -/
def SingleCoord.size (_ : SingleCoord) : ℤ := 1

/-- `SingleCoord.is_max_to_min` is always False. -/
def SingleCoord.is_max_to_min (_ : SingleCoord) : Bool := false

/-- `SingleCoord._coords_validate` on a sequence input: a tuple or array
with more than one element is rejected ("SingleCoord cannot have multiple
values"). -/
def SingleCoord.fromCoords (l : List ℚ) : Except String SingleCoord :=
  match l with
  | [v] => .ok { coords := v }
  | _ => .error "SingleCoord cannot have multiple values"

/-- `SingleCoord.intersect_bounds` with `ind=True`: `[0, 1]`. -/
def SingleCoord.intersect_bounds_ind (_ : SingleCoord) (_ : ℚ × ℚ) (_ : ℤ) :
    ℤ × ℤ := (0, 1)

/-- `SingleCoord.intersect_bounds` with `ind=False`: returns `self`. -/
def SingleCoord.intersect_bounds_obj (c : SingleCoord) (_ : ℚ × ℚ) (_ : ℤ) :
    SingleCoord := c

/-- `GridCoord`: a list of arbitrary coordinates (coordinate.py lines
270-367). -/
structure GridCoord where
  coords : List ℚ
  units : Option String := none
deriving DecidableEq, Repr

/-- `GridCoord._coords_validate`: `np.array(value).squeeze()` must be 1-d;
a one-element input squeezes to a 0-d array and is rejected, and an empty
input fails at the `val[0]` dtype check (IndexError). -/
def mkGridCoord (l : List ℚ) (units : Option String) : Except String GridCoord :=
  match l with
  | [] => .error "IndexError: index 0 is out of bounds"
  | [_] => .error "Non-uniform coordinates can only have 1 dimension, not 0"
  | _ => .ok { coords := l, units := units }

/-- `GridCoord.bounds`: `np.array([np.nanmin(coords), np.nanmax(coords)])`. -/
def GridCoord.bounds (c : GridCoord) : ℚ × ℚ := (npMin c.coords, npMax c.coords)

/-- `GridCoord.is_max_to_min`: first (non-nan) entry greater than last. -/
def GridCoord.is_max_to_min (c : GridCoord) : Bool :=
  decide (c.coords.headD 0 > c.coords.getLastD 0)

/-- `GridCoord.size`: the number of entries. -/
def GridCoord.size (c : GridCoord) : ℤ := c.coords.length

/-- `GridCoord.coordinates`: the backing array itself. -/
def GridCoord.coordinates (c : GridCoord) : List ℚ := c.coords

/-- `GridCoord.delta`:
`(coords[-1] - coords[0]) / float(size) * (1 - 2 * is_max_to_min)`. -/
def GridCoord.delta (c : GridCoord) : ℚ :=
  (c.coords.getLastD 0 - c.coords.headD 0) / (c.coords.length : ℚ) *
    (1 - 2 * (if c.is_max_to_min then 1 else 0))

/-- The index set `np.where(gt & lt)[0]` of `GridCoord.intersect_bounds`:
positions whose value is within `[bounds[0] - delta, bounds[1] + delta]`. -/
def GridCoord.intersect_inds (c : GridCoord) (b : ℚ × ℚ) : List ℕ :=
  (List.range c.coords.length).filter
    (fun i => decide (b.1 - c.delta ≤ c.coords.getD i 0) &&
              decide (c.coords.getD i 0 ≤ b.2 + c.delta))

/-- `GridCoord.intersect_bounds` with `ind=True`: `[0, 0]` when no index
matches, otherwise `[max(0, min - pad), min(max + pad + 1, size)]`. -/
def GridCoord.intersect_bounds_ind (c : GridCoord) (b : ℚ × ℚ) (pad : ℤ) :
    ℤ × ℤ :=
  let inds := c.intersect_inds b
  match inds.min?, inds.max? with
  | some mn, some mx =>
      (max 0 ((mn : ℤ) - pad), min ((mx : ℤ) + pad + 1) (c.coords.length : ℤ))
  | _, _ => (0, 0)

/-- `GridCoord.intersect_bounds` with `ind=False`: when no index matches it
builds `self.__class__(coords=(self.bounds[0], self.bounds[1], 0))` — for
GridCoord that is a three-element coordinate array — otherwise the validated
slice `coordinates[lefti:righti]` (with `self.kwargs`, which carries units). -/
def GridCoord.intersect_bounds_obj (c : GridCoord) (b : ℚ × ℚ) (pad : ℤ) :
    Except String GridCoord :=
  let inds := c.intersect_inds b
  match inds.min?, inds.max? with
  | some mn, some mx =>
      let lefti := max 0 ((mn : ℤ) - pad)
      let righti := min ((mx : ℤ) + pad + 1) (c.coords.length : ℤ)
      mkGridCoord (pySlice c.coords lefti righti) c.units
  | _, _ => mkGridCoord [c.bounds.1, c.bounds.2, 0] none

/-- `UniformGridCoord` (coordinate.py lines 369-557): uniformly spaced
coordinates from `start`/`stop` and either `num` or `step`; a valid
construction has exactly one of `num`, `step` set (`requires num or step,
not both`). -/
structure UniformGridCoord where
  start : ℚ
  stop : ℚ
  num : Option ℤ := none
  step : Option ℚ := none
  units : Option String := none
deriving DecidableEq, Repr

/-- `UniformGridCoord.is_max_to_min`: `start > stop`. -/
def UniformGridCoord.is_max_to_min (c : UniformGridCoord) : Bool :=
  decide (c.start > c.stop)

/-- `UniformGridCoord.bounds`: `[stop, start]` when descending, else
`[start, stop]`. -/
def UniformGridCoord.bounds (c : UniformGridCoord) : ℚ × ℚ :=
  if c.is_max_to_min then (c.stop, c.start) else (c.start, c.stop)

/-- `UniformGridCoord.delta`: `step` when given, otherwise
`(stop - start + 1) / num`, negated when descending. -/
def UniformGridCoord.delta (c : UniformGridCoord) : ℚ :=
  match c.step with
  | some s => s
  | none =>
      let d := (c.stop - c.start + 1) / ((c.num.getD 0 : ℤ) : ℚ)
      if c.is_max_to_min then -d else d

/-- `UniformGridCoord.size`: `num` when given, otherwise
`max(0, int(np.ceil((start - stop) / step)))`. -/
def UniformGridCoord.size (c : UniformGridCoord) : ℤ :=
  match c.num with
  | some n => n
  | none => max 0 ⌈(c.start - c.stop) / c.step.getD 1⌉

/-- `UniformGridCoord.coordinates` (numeric dtype):
`np.arange(start, stop + delta, step)` when `step` is given, else
`np.linspace(start, stop, size)`. -/
def UniformGridCoord.coordinates (c : UniformGridCoord) : List ℚ :=
  match c.step with
  | some s => npArange c.start (c.stop + c.delta) s
  | none => npLinspace c.start c.stop c.size

/-- The in-place update of the `bounds` argument at the top of
`UniformGridCoord.intersect_bounds`:
`bounds[0] = max(self.bounds[0], bounds[0])`;
`bounds[1] = min(self.bounds[1], bounds[1])`. -/
def UniformGridCoord.clipBounds (c : UniformGridCoord) (b : ℚ × ℚ) : ℚ × ℚ :=
  (max c.bounds.1 b.1, min c.bounds.2 b.2)

/-- `UniformGridCoord.intersect_bounds` with `ind=True`; the second
component is the final state of the caller's (mutated) `bounds` argument. -/
def UniformGridCoord.intersect_bounds_ind (c : UniformGridCoord) (b : ℚ × ℚ)
    (pad : ℤ) : (ℤ × ℤ) × (ℚ × ℚ) :=
  let b' := c.clipBounds b
  let imin : ℤ := ⌊(b'.1 - c.bounds.1) / c.delta⌋
  let imax : ℤ := ⌈(c.bounds.2 - b'.2) / c.delta⌉
  let p : ℤ × ℤ := if c.is_max_to_min then (imax, imin) else (imin, imax)
  ((min c.size (max 0 (p.1 - pad)), min c.size (max 0 (c.size - p.2 + pad))), b')

/-- `UniformGridCoord.intersect_bounds` with `ind=False`: builds
`UniformGridCoord(start=cmin, stop=cmax, step=self.delta, **self.kwargs)`;
the second component is the final state of the caller's (mutated) `bounds`
argument. -/
def UniformGridCoord.intersect_bounds_obj (c : UniformGridCoord) (b : ℚ × ℚ)
    (pad : ℤ) : UniformGridCoord × (ℚ × ℚ) :=
  let b' := c.clipBounds b
  let imin : ℤ := ⌊(b'.1 - c.bounds.1) / c.delta⌋
  let imax : ℤ := ⌈(c.bounds.2 - b'.2) / c.delta⌉
  let cmin := max c.bounds.1 (c.bounds.1 + (max 0 (imin - pad) : ℤ) * c.delta)
  let cmax := min c.bounds.2 (c.bounds.2 - (max 0 (imax - pad) : ℤ) * c.delta)
  let p : ℚ × ℚ := if c.is_max_to_min then (cmax, cmin) else (cmin, cmax)
  ({ start := p.1, stop := p.2, step := some c.delta, units := c.units }, b')

/-- The polymorphic 1-d coordinate: `SingleCoord`, `GridCoord` or
`UniformGridCoord` behind the common `Coord` interface. -/
inductive Coord1d where
  | single : SingleCoord → Coord1d
  | grid : GridCoord → Coord1d
  | uniform : UniformGridCoord → Coord1d
deriving DecidableEq, Repr

/-- Dispatched `units` trait. -/
def Coord1d.units : Coord1d → Option String
  | .single c => c.units
  | .grid c => c.units
  | .uniform c => c.units

/-- Dispatched `bounds` property. -/
def Coord1d.bounds : Coord1d → ℚ × ℚ
  | .single c => c.bounds
  | .grid c => c.bounds
  | .uniform c => c.bounds

/-- Dispatched `size` property. -/
def Coord1d.size : Coord1d → ℤ
  | .single c => c.size
  | .grid c => c.size
  | .uniform c => c.size

/-- Dispatched `coordinates` property. -/
def Coord1d.coordinates : Coord1d → List ℚ
  | .single c => c.coordinates
  | .grid c => c.coordinates
  | .uniform c => c.coordinates

/-- Dispatched `intersect_bounds` with `ind=True` (the mutated bounds state
of the uniform variant is dropped here, as the caller discards it). -/
def Coord1d.intersect_bounds_ind : Coord1d → ℚ × ℚ → ℤ → ℤ × ℤ
  | .single c, b, pad => c.intersect_bounds_ind b pad
  | .grid c, b, pad => c.intersect_bounds_ind b pad
  | .uniform c, b, pad => (c.intersect_bounds_ind b pad).1

/-- Dispatched `intersect_bounds` with `ind=False`. -/
def Coord1d.intersect_bounds_obj : Coord1d → ℚ × ℚ → ℤ → Except String Coord1d
  | .single c, b, pad => .ok (.single (c.intersect_bounds_obj b pad))
  | .grid c, b, pad => (c.intersect_bounds_obj b pad).map .grid
  | .uniform c, b, pad => .ok (.uniform (c.intersect_bounds_obj b pad).1)

/-- `self.__class__(coords=(self.bounds[0], self.bounds[1], 0))` in
`Coord.intersect_check`: for `UniformGridCoord` this is a size-0 uniform
coordinate, for `GridCoord` a three-element coordinate array, and for
`SingleCoord` the validation raises. -/
def Coord1d.emptyLike : Coord1d → Except String Coord1d
  | .single c => (SingleCoord.fromCoords [c.bounds.1, c.bounds.2, 0]).map .single
  | .grid c => (mkGridCoord [c.bounds.1, c.bounds.2, 0] none).map .grid
  | .uniform c =>
      .ok (.uniform { start := c.bounds.1, stop := c.bounds.2, num := some 0 })

/-- `Coord.intersect_check` with `ind=True`: units must match; equal bounds
short-circuit to `[0, size]`; disjoint bounds short-circuit to `[0, 0]`;
otherwise `None` (continue to `intersect_bounds`). -/
def Coord1d.intersect_check_ind (c o : Coord1d) : Except String (Option (ℤ × ℤ)) :=
  if c.units ≠ o.units then
    .error "Still need to implement handling of different units"
  else if c.bounds = o.bounds then .ok (some (0, c.size))
  else if max c.bounds.1 o.bounds.1 > min c.bounds.2 o.bounds.2 then
    .ok (some (0, 0))
  else .ok none

/-- `Coord.intersect_check` with `ind=False`: units must match; equal
bounds short-circuit to `self`; disjoint bounds short-circuit to
`self.__class__(coords=(bounds[0], bounds[1], 0))`; otherwise `None`. -/
def Coord1d.intersect_check_obj (c o : Coord1d) : Except String (Option Coord1d) :=
  if c.units ≠ o.units then
    .error "Still need to implement handling of different units"
  else if c.bounds = o.bounds then .ok (some c)
  else if max c.bounds.1 o.bounds.1 > min c.bounds.2 o.bounds.2 then
    c.emptyLike.map some
  else .ok none

/-- `Coord.intersect` with `ind=True`: the `intersect_check` result when it
is not `None`, else `intersect_bounds(other.bounds, pad, ind=True)`. -/
def Coord1d.intersect_ind (c o : Coord1d) (pad : ℤ) : Except String (ℤ × ℤ) :=
  match c.intersect_check_ind o with
  | .error e => .error e
  | .ok (some r) => .ok r
  | .ok none => .ok (c.intersect_bounds_ind o.bounds pad)

/-- `Coord.intersect` with `ind=False`: the `intersect_check` result when it
is not `None`, else `intersect_bounds(other.bounds, pad)`. -/
def Coord1d.intersect_obj (c o : Coord1d) (pad : ℤ) : Except String Coord1d :=
  match c.intersect_check_obj o with
  | .error e => .error e
  | .ok (some r) => .ok r
  | .ok none => c.intersect_bounds_obj o.bounds pad

/-! ### The multi-dimensional Coordinate container (coordinate.py lines 638-1039) -/

/-- `key.split('_')` (python string split on every underscore), defined
structurally over the character list so it evaluates in the kernel. -/
def splitUnderscoreAux : List Char → List Char → List String
  | [], cur => [String.mk cur.reverse]
  | (c :: rest), cur =>
      if c = '_' then String.mk cur.reverse :: splitUnderscoreAux rest []
      else splitUnderscoreAux rest (c :: cur)

/-- `key.split('_')` (see `splitUnderscoreAux`). -/
def splitUnderscore (s : String) : List String := splitUnderscoreAux s.data []

/-- `'_' in key`. -/
def hasUnderscore (s : String) : Bool := s.data.contains '_'

/-- Ordered-dictionary insertion, python semantics: assignment to an
existing key updates the value in place (keeping its position), otherwise
the pair is appended. -/
def dictInsert {A : Type} (d : List (String × A)) (k : String) (v : A) :
    List (String × A) :=
  match d with
  | [] => [(k, v)]
  | (k0, v0) :: rest =>
      if k0 = k then (k0, v) :: rest else (k0, v0) :: dictInsert rest k v

/-- Ordered-dictionary lookup. -/
def dictFind? {A : Type} (d : List (String × A)) (k : String) : Option A :=
  match d with
  | [] => none
  | (k0, v0) :: rest => if k0 = k then some v0 else dictFind? rest k

/-- Turn a key-value list into an ordered dictionary (python `OrderedDict`
construction from a sequence of pairs): later duplicates update earlier
entries in place. -/
def dictOfList {A : Type} (l : List (String × A)) : List (String × A) :=
  l.foldl (fun acc kv => dictInsert acc kv.1 kv.2) []

/-- A coordinate value in the constructor's input mapping: an unstacked
key carries a single coordinate, a stacked key carries the tuple of its
component coordinates. -/
inductive CoordSpec where
  | one : Coord1d → CoordSpec
  | many : List Coord1d → CoordSpec
deriving DecidableEq, Repr

/-- `Coordinate._valid_dims`: `('time', 'lat', 'lon', 'alt')`. -/
def valid_dims : List String := ["time", "lat", "lon", "alt"]

/-- `Coordinate.get_dims_map`: each key containing `_` maps every one of
its components to the full stacked key; a plain key maps to itself.  The
result is an ordered dict (a component already present is updated in
place). -/
def get_dims_map_loop : List String → List (String × String) → List (String × String)
  | [], acc => acc
  | (c :: rest), acc =>
      if hasUnderscore c then
        get_dims_map_loop rest
          ((splitUnderscore c).foldl (fun acc2 cc => dictInsert acc2 cc c) acc)
      else get_dims_map_loop rest (dictInsert acc c c)

/-- `Coordinate.get_dims_map` (see `get_dims_map_loop`). -/
def get_dims_map (keys : List String) : List (String × String) :=
  get_dims_map_loop keys []

/-- `Coordinate.unstack_dict`: expand each stacked key into its
components, assigning `val[i]` to component `i`.  A key found in
`dims_map` keeps its value; for a stacked key, indexing a bare coordinate
raises (`TypeError`) and a too-short tuple raises (`IndexError`); a tuple
value under an unstacked key is rejected downstream by `make_coord`'s
dtype validation, modelled as an error here. -/
def unstack_loop (dm : List (String × String)) :
    List (String × CoordSpec) → List (String × Coord1d) →
    Except String (List (String × Coord1d))
  | [], acc => .ok acc
  | (kv :: rest), acc =>
      if (dm.map Prod.fst).contains kv.1 then
        match kv.2 with
        | .one c => unstack_loop dm rest (dictInsert acc kv.1 c)
        | .many _ => .error "GridCoord coordinates must all be the same type"
      else
        match kv.2 with
        | .one _ => .error "TypeError: object is not subscriptable"
        | .many vals =>
            let parts := splitUnderscore kv.1
            if parts.length ≤ vals.length then
              unstack_loop dm rest
                ((parts.zip vals).foldl (fun a pv => dictInsert a pv.1 pv.2) acc)
            else .error "IndexError: tuple index out of range"

/-- `Coordinate.unstack_dict` (see `unstack_loop`). -/
def unstack_dict (dm : List (String × String))
    (coords : List (String × CoordSpec)) :
    Except String (List (String × Coord1d)) :=
  unstack_loop dm coords []

/-- The loop body of `Coordinate._coords_validate` together with
`Coordinate._validate_dim`: each unstacked key must be a valid,
non-repeated dimension, and within one stacked key all component sizes
must agree with the first component's size (`stack_dims`). -/
def validateLoop (dm : List (String × String)) :
    List (String × Coord1d) → List String → List (String × ℤ) →
    Except String Unit
  | [], _, _ => .ok ()
  | ((key, val) :: rest), seen, sdims =>
      if ¬ valid_dims.contains key then
        .error ("The " ++ key ++ " dimension is not a valid dimension")
      else if seen.contains key then
        .error ("The dimensions " ++ key ++ " cannot be repeated")
      else if ¬ (dm.map Prod.snd).contains key then
        match dictFind? sdims ((dictFind? dm key).getD "") with
        | none =>
            validateLoop dm rest (seen ++ [key])
              (dictInsert sdims ((dictFind? dm key).getD "") val.size)
        | some s =>
            if val.size ≠ s then
              .error "Stacked dimensions need to have the same size"
            else validateLoop dm rest (seen ++ [key]) sdims
      else validateLoop dm rest (seen ++ [key]) sdims

/-- The `Coordinate` state after a successful construction: the
`dims_map` ordered dict (component dimension to stored key) and the
`_coords` ordered dict (component dimension to its 1-d coordinate). -/
structure Coordinate where
  dims_map : List (String × String)
  coords : List (String × Coord1d)
deriving DecidableEq, Repr

/-- `Coordinate.__init__`: build `dims_map` from the input keys, unstack
the input mapping, and validate it (`_coords_validate`).  The input is
normalized to an ordered dict first (the python argument is a dict, whose
construction already merges duplicate keys). -/
def mkCoordinate (input : List (String × CoordSpec)) : Except String Coordinate :=
  let inp := dictOfList input
  let dm := get_dims_map (inp.map Prod.fst)
  match unstack_dict dm inp with
  | .error e => .error e
  | .ok uc =>
      match validateLoop dm uc [] [] with
      | .error e => .error e
      | .ok _ => .ok { dims_map := dm, coords := uc }

/-- `Coordinate.dims`: the values of `dims_map` with duplicates removed,
first occurrence order. -/
def dedupLoop : List String → List String → List String
  | [], _ => []
  | v :: rest, seen =>
      if seen.contains v then dedupLoop rest seen
      else v :: dedupLoop rest (seen ++ [v])

/-- `Coordinate.dims` (see `dedupLoop`). -/
def Coordinate.dims (c : Coordinate) : List String :=
  dedupLoop (c.dims_map.map Prod.snd) []

/-- `Coordinate.get_shape` with `other_coords=self`: for each unstacked
key in order, append its size, popping it again when the key's stacked
dimension was already seen. -/
def shapeLoop (dm : List (String × String)) :
    List (String × Coord1d) → List String → List ℤ
  | [], _ => []
  | kv :: rest, seen =>
      let d := (dictFind? dm kv.1).getD ""
      if seen.contains d then shapeLoop dm rest seen
      else kv.2.size :: shapeLoop dm rest (seen ++ [d])

/-- `Coordinate.shape` (`get_shape()` with no argument). -/
def Coordinate.shape (c : Coordinate) : List ℤ :=
  shapeLoop c.dims_map c.coords []

/-- Modelled from the spec: the spec's `Coordinates.size` property
(`Coordinates.size == product(shape)`) belongs to the redesigned
`Coordinates` class whose implementation is not among the sources (only
its tests are); the spec defines it as the product of the shape entries. -/
def Coordinate.totalSize (c : Coordinate) : ℤ := c.shape.prod

/-- The size of the first component stored under the dims-key `d`: the
per-key size that the spec's `shape` description refers to (for a stacked
key this is "its common component size", the components being forced to
equal sizes by validation). -/
def Coordinate.keySize (c : Coordinate) (d : String) : ℤ :=
  match c.coords.find? (fun kv => ((dictFind? c.dims_map kv.1).getD "") == d) with
  | some kv => kv.2.size
  | none => 0

/-- `temp` update in `Coordinate.stack_dict`: a bare value becomes a
two-element list, a list gets the new value appended. -/
def specAppend (s : CoordSpec) (c : Coord1d) : CoordSpec :=
  match s with
  | .one c0 => .many [c0, c]
  | .many l => .many (l ++ [c])

/-- `Coordinate.stack_dict`: regroup the unstacked dict by `dims_map`
values; looking up a missing key raises (`KeyError`). -/
def stack_loop (coords : List (String × Coord1d)) :
    List (String × String) → List (String × CoordSpec) →
    Except String (List (String × CoordSpec))
  | [], acc => .ok acc
  | (kv :: rest), acc =>
      match dictFind? coords kv.1 with
      | none => .error "KeyError"
      | some c =>
          match dictFind? acc kv.2 with
          | some s => stack_loop coords rest (dictInsert acc kv.2 (specAppend s c))
          | none => stack_loop coords rest (dictInsert acc kv.2 (.one c))

/-- `Coordinate.stack_dict` (see `stack_loop`). -/
def stack_dict (dm : List (String × String)) (coords : List (String × Coord1d)) :
    Except String (List (String × CoordSpec)) :=
  stack_loop coords dm []

/-- `Coordinate.intersect`: per unstacked key, keys missing from `other`
pass through, shared keys are intersected (`Coord.intersect`); the
resulting dict is restacked (`stack_dict`) and passed through the
`Coordinate` constructor again. -/
def intersectLoop (b : Coordinate) (pad : ℤ) :
    List (String × Coord1d) → List (String × Coord1d) →
    Except String (List (String × Coord1d))
  | [], acc => .ok acc
  | (kv :: rest), acc =>
      match dictFind? b.coords kv.1 with
      | none => intersectLoop b pad rest (dictInsert acc kv.1 kv.2)
      | some oc =>
          match kv.2.intersect_obj oc pad with
          | .error e => .error e
          | .ok res => intersectLoop b pad rest (dictInsert acc kv.1 res)

/-- `Coordinate.intersect` (see `intersectLoop` for the per-key loop). -/
def Coordinate.intersect (a b : Coordinate) (pad : ℤ) : Except String Coordinate :=
  match intersectLoop b pad a.coords [] with
  | .error e => .error e
  | .ok new_crds =>
      match stack_dict a.dims_map new_crds with
      | .error e => .error e
      | .ok stacked => mkCoordinate stacked

/-! ### Shared helper lemmas -/

lemma intCeil_eval (q : ℚ) (z : ℤ) (h1 : (z : ℚ) - 1 < q) (h2 : q ≤ (z : ℚ)) :
    (⌈q⌉ : ℤ) = z := Int.ceil_eq_iff.mpr ⟨h1, h2⟩

lemma npArange_eval (a b s : ℚ) (n : ℕ) (h : (⌈(b - a) / s⌉ : ℤ) = (n : ℤ)) :
    npArange a b s = (List.range n).map (fun k => a + (k : ℚ) * s) := by
  simp [npArange, h]

lemma foldl_min_le_init (l : List ℚ) (a : ℚ) : l.foldl min a ≤ a := by
  induction l generalizing a with
  | nil => simp
  | cons x xs ih => exact le_trans (ih (min a x)) (min_le_left a x)

lemma foldl_min_le_mem {l : List ℚ} {x : ℚ} (hx : x ∈ l) (a : ℚ) : l.foldl min a ≤ x := by
  induction l generalizing a with
  | nil => cases hx
  | cons y ys ih =>
    rcases List.mem_cons.mp hx with h | h
    · subst h
      exact le_trans (foldl_min_le_init ys (min a x)) (min_le_right a x)
    · exact ih h (min a y)

lemma foldl_min_mem (l : List ℚ) (a : ℚ) : l.foldl min a = a ∨ l.foldl min a ∈ l := by
  induction l generalizing a with
  | nil => left; rfl
  | cons y ys ih =>
    rcases ih (min a y) with h | h
    · rcases min_choice a y with hm | hm
      · left; rw [List.foldl_cons, h, hm]
      · right; rw [List.foldl_cons, h, hm]; exact List.mem_cons_self y ys
    · right; exact List.mem_cons_of_mem y h

lemma foldl_max_init_le (l : List ℚ) (a : ℚ) : a ≤ l.foldl max a := by
  induction l generalizing a with
  | nil => simp
  | cons x xs ih => exact le_trans (le_max_left a x) (ih (max a x))

lemma foldl_max_mem_le {l : List ℚ} {x : ℚ} (hx : x ∈ l) (a : ℚ) : x ≤ l.foldl max a := by
  induction l generalizing a with
  | nil => cases hx
  | cons y ys ih =>
    rcases List.mem_cons.mp hx with h | h
    · subst h
      exact le_trans (le_max_right a x) (foldl_max_init_le ys (max a x))
    · exact ih h (max a y)

lemma foldl_max_mem (l : List ℚ) (a : ℚ) : l.foldl max a = a ∨ l.foldl max a ∈ l := by
  induction l generalizing a with
  | nil => left; rfl
  | cons y ys ih =>
    rcases ih (max a y) with h | h
    · rcases max_choice a y with hm | hm
      · left; rw [List.foldl_cons, h, hm]
      · right; rw [List.foldl_cons, h, hm]; exact List.mem_cons_self y ys
    · right; exact List.mem_cons_of_mem y h

lemma npMin_mem {l : List ℚ} (h : l ≠ []) : npMin l ∈ l := by
  rcases foldl_min_mem l (l.headD 0) with h1 | h1
  · rw [npMin, h1]
    cases l with
    | nil => exact absurd rfl h
    | cons x xs => exact List.mem_cons_self x xs
  · exact h1

lemma npMax_mem {l : List ℚ} (h : l ≠ []) : npMax l ∈ l := by
  rcases foldl_max_mem l (l.headD 0) with h1 | h1
  · rw [npMax, h1]
    cases l with
    | nil => exact absurd rfl h
    | cons x xs => exact List.mem_cons_self x xs
  · exact h1

/-! ### Ordered-dictionary lemmas -/

lemma dictFind?_insert_self {A : Type} (d : List (String × A)) (k : String) (v : A) :
    dictFind? (dictInsert d k v) k = some v := by
  induction d with
  | nil => simp [dictInsert, dictFind?]
  | cons kv rest ih =>
    by_cases h : kv.1 = k
    · simp [dictInsert, dictFind?, h]
    · simp [dictInsert, dictFind?, h, ih]

lemma dictFind?_insert_ne {A : Type} (d : List (String × A)) (k k' : String) (v : A)
    (h : k' ≠ k) : dictFind? (dictInsert d k v) k' = dictFind? d k' := by
  have hne : ¬ k = k' := fun hh => h hh.symm
  induction d with
  | nil => simp [dictInsert, dictFind?, hne]
  | cons kv rest ih =>
    by_cases h1 : kv.1 = k
    · simp only [dictInsert, if_pos h1, dictFind?]
      rw [if_neg (h1 ▸ hne), if_neg (h1 ▸ hne)]
    · simp only [dictInsert, if_neg h1, dictFind?]
      by_cases h2 : kv.1 = k'
      · rw [if_pos h2, if_pos h2]
      · rw [if_neg h2, if_neg h2, ih]

lemma keys_dictInsert_mem {A : Type} (d : List (String × A)) (k : String) (v : A)
    (h : k ∈ d.map Prod.fst) : (dictInsert d k v).map Prod.fst = d.map Prod.fst := by
  induction d with
  | nil => simp at h
  | cons kv rest ih =>
    by_cases h1 : kv.1 = k
    · simp [dictInsert, h1]
    · simp only [List.map_cons] at h
      rcases List.mem_cons.mp h with h2 | h2
      · exact absurd h2.symm h1
      · simp [dictInsert, h1, ih h2]

lemma dictInsert_fresh {A : Type} (d : List (String × A)) (k : String) (v : A)
    (h : ¬ k ∈ d.map Prod.fst) : dictInsert d k v = d ++ [(k, v)] := by
  induction d with
  | nil => simp [dictInsert]
  | cons kv rest ih =>
    simp only [List.map_cons, List.mem_cons] at h
    push_neg at h
    have hne : ¬ kv.1 = k := fun hh => h.1 hh.symm
    simp [dictInsert, hne, ih h.2]

lemma keys_dictInsert_congr {A B : Type} (d1 : List (String × A)) (d2 : List (String × B))
    (k : String) (v1 : A) (v2 : B) (h : d1.map Prod.fst = d2.map Prod.fst) :
    (dictInsert d1 k v1).map Prod.fst = (dictInsert d2 k v2).map Prod.fst := by
  induction d1 generalizing d2 with
  | nil =>
    cases d2 with
    | nil => simp [dictInsert]
    | cons kv2 rest2 => simp at h
  | cons kv rest ih =>
    cases d2 with
    | nil => simp at h
    | cons kv2 rest2 =>
      simp only [List.map_cons, List.cons.injEq] at h
      by_cases h1 : kv.1 = k
      · simp [dictInsert, h1, ← h.1, h.2]
      · simp only [dictInsert, if_neg h1, if_neg (h.1 ▸ h1), List.map_cons, h.1,
          List.cons.injEq, true_and]
        exact ih rest2 h.2

lemma keys_dictInsert_nodup {A : Type} (d : List (String × A)) (k : String) (v : A)
    (h : (d.map Prod.fst).Nodup) : ((dictInsert d k v).map Prod.fst).Nodup := by
  by_cases h1 : k ∈ d.map Prod.fst
  · rw [keys_dictInsert_mem d k v h1]; exact h
  · rw [dictInsert_fresh d k v h1]
    simp only [List.map_append, List.map_cons, List.map_nil]
    rw [List.nodup_append]
    refine ⟨h, List.nodup_singleton k, ?_⟩
    intro a ha hb
    rw [List.mem_singleton] at hb
    exact h1 (hb ▸ ha)

lemma dictFind?_nodup_mem {A : Type} {d : List (String × A)} {k : String} {v : A}
    (hd : (d.map Prod.fst).Nodup) (h : (k, v) ∈ d) : dictFind? d k = some v := by
  induction d with
  | nil => simp at h
  | cons kv rest ih =>
    simp only [List.map_cons, List.nodup_cons] at hd
    rcases List.mem_cons.mp h with h1 | h1
    · rw [← h1]; simp [dictFind?]
    · have hk : ¬ kv.1 = k := by
        intro hh
        exact hd.1 (hh ▸ (List.mem_map.mpr ⟨(k, v), h1, rfl⟩))
      simp only [dictFind?, if_neg hk]
      exact ih hd.2 h1

lemma dictFind?_eq_none {A : Type} {d : List (String × A)} {k : String}
    (h : ¬ k ∈ d.map Prod.fst) : dictFind? d k = none := by
  induction d with
  | nil => rfl
  | cons kv rest ih =>
    simp only [List.map_cons, List.mem_cons] at h
    push_neg at h
    have hne : ¬ kv.1 = k := fun hh => h.1 hh.symm
    simp only [dictFind?, if_neg hne]
    exact ih h.2

lemma dictFind?_isSome_mem {A : Type} {d : List (String × A)} {k : String} {v : A}
    (h : dictFind? d k = some v) : (k, v) ∈ d ∧ k ∈ d.map Prod.fst := by
  induction d with
  | nil => simp [dictFind?] at h
  | cons kv rest ih =>
    by_cases h1 : kv.1 = k
    · simp only [dictFind?, if_pos h1] at h
      refine ⟨?_, by simp [← h1]⟩
      have hv : (k, v) = kv := by
        cases kv
        simp only [Option.some.injEq] at h
        simp only [Prod.mk.injEq]
        simp only at h1
        exact ⟨h1.symm, h.symm⟩
      exact List.mem_cons.mpr (Or.inl hv)
    · simp only [dictFind?, if_neg h1] at h
      obtain ⟨h2, h3⟩ := ih h
      exact ⟨List.mem_cons_of_mem _ h2, by simp [h3]⟩

lemma mem_dictInsert {A : Type} {d : List (String × A)} {k : String} {v : A}
    {kv : String × A} (h : kv ∈ dictInsert d k v) : kv ∈ d ∨ kv = (k, v) := by
  induction d with
  | nil => simp [dictInsert] at h; right; exact h
  | cons kv0 rest ih =>
    by_cases h1 : kv0.1 = k
    · simp only [dictInsert, if_pos h1] at h
      rcases List.mem_cons.mp h with h2 | h2
      · right; rw [h2, ← h1]
      · left; exact List.mem_cons_of_mem _ h2
    · simp only [dictInsert, if_neg h1] at h
      rcases List.mem_cons.mp h with h2 | h2
      · left; exact h2 ▸ List.mem_cons_self _ _
      · rcases ih h2 with h3 | h3
        · left; exact List.mem_cons_of_mem _ h3
        · right; exact h3

lemma keys_dictInsert_superset {A : Type} {d : List (String × A)} {k' : String}
    (k : String) (v : A) (h : k' ∈ d.map Prod.fst) :
    k' ∈ (dictInsert d k v).map Prod.fst := by
  by_cases h1 : k ∈ d.map Prod.fst
  · rw [keys_dictInsert_mem d k v h1]; exact h
  · rw [dictInsert_fresh d k v h1]; simp [h]

lemma keys_dictInsert_new {A : Type} (d : List (String × A)) (k : String) (v : A) :
    k ∈ (dictInsert d k v).map Prod.fst := by
  by_cases h1 : k ∈ d.map Prod.fst
  · rw [keys_dictInsert_mem d k v h1]; exact h1
  · rw [dictInsert_fresh d k v h1]; simp

/-! ### String splitting lemmas -/

lemma hasUnderscore_false_iff (s : String) : hasUnderscore s = false ↔ '_' ∉ s.data := by
  simp [hasUnderscore]

lemma mkString_data (l : List Char) : (String.mk l).data = l := rfl

lemma splitUnderscoreAux_no_underscore (l : List Char) (cur : List Char)
    (hcur : '_' ∉ cur) :
    ∀ p ∈ splitUnderscoreAux l cur, hasUnderscore p = false := by
  induction l generalizing cur with
  | nil =>
    intro p hp
    simp only [splitUnderscoreAux, List.mem_singleton] at hp
    subst hp
    rw [hasUnderscore_false_iff, mkString_data, List.mem_reverse]
    exact hcur
  | cons c rest ih =>
    intro p hp
    by_cases hc : c = '_'
    · simp only [splitUnderscoreAux, if_pos hc] at hp
      rcases List.mem_cons.mp hp with h1 | h1
      · subst h1
        rw [hasUnderscore_false_iff, mkString_data, List.mem_reverse]
        exact hcur
      · exact ih [] (by simp) p h1
    · simp only [splitUnderscoreAux, if_neg hc] at hp
      refine ih (c :: cur) ?_ p hp
      intro hx
      rcases List.mem_cons.mp hx with h1 | h1
      · exact hc h1.symm
      · exact hcur h1

lemma splitUnderscore_no_underscore (s : String) :
    ∀ p ∈ splitUnderscore s, hasUnderscore p = false :=
  splitUnderscoreAux_no_underscore s.data [] (by simp)

lemma splitUnderscoreAux_ne_nil (l cur : List Char) : splitUnderscoreAux l cur ≠ [] := by
  induction l generalizing cur with
  | nil => simp [splitUnderscoreAux]
  | cons c rest ih =>
    by_cases hc : c = '_'
    · simp [splitUnderscoreAux, hc]
    · simp only [splitUnderscoreAux, if_neg hc]
      exact ih (c :: cur)

lemma splitUnderscore_ne_nil (s : String) : splitUnderscore s ≠ [] :=
  splitUnderscoreAux_ne_nil s.data []

/-! ### get_dims_map invariants -/

/-- The structural invariant of `get_dims_map` results: every key is an
underscore-free component name, and an underscore-free value can only be a
plain key mapped to itself. -/
def DmInv (d : List (String × String)) : Prop :=
  (∀ k ∈ d.map Prod.fst, hasUnderscore k = false)
  ∧ (∀ kv ∈ d, hasUnderscore kv.2 = false → kv.1 = kv.2)

lemma dmInv_insert {d : List (String × String)} {k v : String} (hd : DmInv d)
    (hk : hasUnderscore k = false) (hv : hasUnderscore v = false → k = v) :
    DmInv (dictInsert d k v) := by
  constructor
  · intro k' hk'
    rcases List.mem_map.mp hk' with ⟨kv, hkv, hfst⟩
    rcases mem_dictInsert hkv with h | h
    · exact hd.1 k' (hfst ▸ List.mem_map.mpr ⟨kv, h, rfl⟩)
    · rw [← hfst, h]; exact hk
  · intro kv hkv hkv2
    rcases mem_dictInsert hkv with h | h
    · exact hd.2 kv h hkv2
    · rw [h] at hkv2 ⊢; exact hv hkv2

lemma dmInv_parts_fold {parts : List String} {c : String}
    (hparts : ∀ p ∈ parts, hasUnderscore p = false) (hc : hasUnderscore c = true) :
    ∀ {acc : List (String × String)}, DmInv acc →
      DmInv (parts.foldl (fun a cc => dictInsert a cc c) acc) := by
  induction parts with
  | nil => intro acc h; exact h
  | cons p rest ih =>
    intro acc h
    simp only [List.foldl_cons]
    refine ih (fun q hq => hparts q (List.mem_cons_of_mem _ hq)) ?_
    exact dmInv_insert h (hparts p (List.mem_cons_self _ _))
      (fun hcf => absurd hc (by rw [hcf]; simp))

lemma dmInv_loop (keys : List String) :
    ∀ {acc : List (String × String)}, DmInv acc → DmInv (get_dims_map_loop keys acc) := by
  induction keys with
  | nil => intro acc h; exact h
  | cons c rest ih =>
    intro acc h
    by_cases hc : hasUnderscore c
    · simp only [get_dims_map_loop, if_pos hc]
      exact ih (dmInv_parts_fold (splitUnderscore_no_underscore c) hc h)
    · simp only [get_dims_map_loop, if_neg hc]
      exact ih (dmInv_insert h (by simpa using hc) (fun _ => rfl))

lemma get_dims_map_inv (keys : List String) : DmInv (get_dims_map keys) :=
  dmInv_loop keys ⟨by simp, by simp⟩

lemma parts_fold_nodup {parts : List String} {c : String} :
    ∀ {acc : List (String × String)}, (acc.map Prod.fst).Nodup →
      (((parts.foldl (fun a cc => dictInsert a cc c) acc)).map Prod.fst).Nodup := by
  induction parts with
  | nil => intro acc h; exact h
  | cons p rest ih =>
    intro acc h
    simp only [List.foldl_cons]
    exact ih (keys_dictInsert_nodup acc p c h)

lemma get_dims_map_loop_nodup (keys : List String) :
    ∀ {acc : List (String × String)}, (acc.map Prod.fst).Nodup →
      ((get_dims_map_loop keys acc).map Prod.fst).Nodup := by
  induction keys with
  | nil => intro acc h; exact h
  | cons c rest ih =>
    intro acc h
    by_cases hc : hasUnderscore c
    · simp only [get_dims_map_loop, if_pos hc]
      exact ih (parts_fold_nodup h)
    · simp only [get_dims_map_loop, if_neg hc]
      exact ih (keys_dictInsert_nodup acc c c h)

lemma get_dims_map_nodup (keys : List String) :
    ((get_dims_map keys).map Prod.fst).Nodup :=
  get_dims_map_loop_nodup keys (by simp)

lemma parts_fold_superset {parts : List String} {c k : String}
    {acc : List (String × String)} (h : k ∈ acc.map Prod.fst) :
    k ∈ ((parts.foldl (fun a cc => dictInsert a cc c) acc)).map Prod.fst := by
  induction parts generalizing acc with
  | nil => exact h
  | cons p rest ih =>
    simp only [List.foldl_cons]
    exact ih (keys_dictInsert_superset p c h)

lemma get_dims_map_loop_superset (keys : List String) {k : String} :
    ∀ {acc : List (String × String)}, k ∈ acc.map Prod.fst →
      k ∈ (get_dims_map_loop keys acc).map Prod.fst := by
  induction keys with
  | nil => intro acc h; exact h
  | cons c rest ih =>
    intro acc h
    by_cases hc : hasUnderscore c
    · simp only [get_dims_map_loop, if_pos hc]
      exact ih (parts_fold_superset h)
    · simp only [get_dims_map_loop, if_neg hc]
      exact ih (keys_dictInsert_superset c c h)

lemma get_dims_map_loop_plain_mem {k : String} (hk : hasUnderscore k = false)
    (keys : List String) :
    ∀ (acc : List (String × String)), k ∈ keys →
      k ∈ (get_dims_map_loop keys acc).map Prod.fst := by
  induction keys with
  | nil => intro acc h; simp at h
  | cons c rest ih =>
    intro acc h
    rcases List.mem_cons.mp h with h1 | h1
    · subst h1
      rw [get_dims_map_loop, if_neg (by simp [hk])]
      exact get_dims_map_loop_superset rest (keys_dictInsert_new acc k k)
    · by_cases hc : hasUnderscore c
      · rw [get_dims_map_loop, if_pos hc]
        exact ih _ h1
      · rw [get_dims_map_loop, if_neg hc]
        exact ih _ h1

lemma get_dims_map_plain_mem {keys : List String} {k : String}
    (hk : hasUnderscore k = false) (h : k ∈ keys) :
    k ∈ (get_dims_map keys).map Prod.fst :=
  get_dims_map_loop_plain_mem hk keys [] h

/-! ### Constructor invariants -/

lemma fold_insert_keys_congr {A B : Type} :
    ∀ (l1 : List (String × A)) (l2 : List (String × B))
      (acc1 : List (String × A)) (acc2 : List (String × B)),
      l1.map Prod.fst = l2.map Prod.fst →
      acc1.map Prod.fst = acc2.map Prod.fst →
      ((l1.foldl (fun a kv => dictInsert a kv.1 kv.2) acc1).map Prod.fst)
        = ((l2.foldl (fun a kv => dictInsert a kv.1 kv.2) acc2).map Prod.fst) := by
  intro l1
  induction l1 with
  | nil =>
    intro l2 acc1 acc2 h hacc
    cases l2 with
    | nil => exact hacc
    | cons kv2 rest2 => simp at h
  | cons kv rest ih =>
    intro l2 acc1 acc2 h hacc
    cases l2 with
    | nil => simp at h
    | cons kv2 rest2 =>
      simp only [List.map_cons, List.cons.injEq] at h
      simp only [List.foldl_cons]
      exact ih rest2 _ _ h.2
        (h.1 ▸ keys_dictInsert_congr acc1 acc2 kv.1 kv.2 kv2.2 hacc)

lemma unstack_keys_align (dm : List (String × String)) :
    ∀ (inp : List (String × CoordSpec)),
      (∀ kv ∈ inp, ((dm.map Prod.fst).contains kv.1 = true ↔ hasUnderscore kv.1 = false)) →
      ∀ (acc_u : List (String × Coord1d)) (acc_d : List (String × String))
        (uc : List (String × Coord1d)),
        acc_u.map Prod.fst = acc_d.map Prod.fst →
        unstack_loop dm inp acc_u = .ok uc →
        uc.map Prod.fst = (get_dims_map_loop (inp.map Prod.fst) acc_d).map Prod.fst := by
  intro inp
  induction inp with
  | nil =>
    intro _ acc_u acc_d uc hacc h
    simp only [unstack_loop] at h
    cases h
    exact hacc
  | cons kv rest ih =>
    intro hcond acc_u acc_d uc hacc h
    have hcondr : ∀ kv' ∈ rest, ((dm.map Prod.fst).contains kv'.1 = true ↔ hasUnderscore kv'.1 = false) :=
      fun kv' hkv' => hcond kv' (List.mem_cons_of_mem _ hkv')
    have hcondh := hcond kv (List.mem_cons_self _ _)
    by_cases hc : (dm.map Prod.fst).contains kv.1
    · have hu : hasUnderscore kv.1 = false := hcondh.mp hc
      rw [unstack_loop, if_pos hc] at h
      cases hspec : kv.2 with
      | one c =>
        rw [hspec] at h
        rw [List.map_cons, get_dims_map_loop, if_neg (by simp [hu])]
        exact ih hcondr _ _ uc
          (keys_dictInsert_congr acc_u acc_d kv.1 c kv.1 hacc) h
      | many vals =>
        rw [hspec] at h
        cases h
    · have hu : hasUnderscore kv.1 = true := by
        rcases Bool.eq_false_or_eq_true (hasUnderscore kv.1) with h1 | h1
        · exact h1
        · exact absurd (hcondh.mpr h1) (by simpa using hc)
      rw [unstack_loop, if_neg hc] at h
      cases hspec : kv.2 with
      | one c =>
        rw [hspec] at h
        cases h
      | many vals =>
        rw [hspec] at h
        simp only at h
        by_cases hlen : (splitUnderscore kv.1).length ≤ vals.length
        · rw [if_pos hlen] at h
          rw [List.map_cons, get_dims_map_loop, if_pos hu]
          refine ih hcondr _ _ uc ?_ h
          have hz : ((splitUnderscore kv.1).zip vals).map Prod.fst = splitUnderscore kv.1 :=
            List.map_fst_zip _ _ hlen
          have hg : (splitUnderscore kv.1).foldl (fun a cc => dictInsert a cc kv.1) acc_d
              = (((splitUnderscore kv.1).map (fun cc => (cc, kv.1))).foldl
                  (fun a kv2 => dictInsert a kv2.1 kv2.2) acc_d) := by
            rw [List.foldl_map]
          rw [hg]
          refine fold_insert_keys_congr _ _ _ _ ?_ hacc
          rw [hz]
          simp [Function.comp_def]
        · rw [if_neg hlen] at h
          cases h

lemma mk_ok_inv {inp : List (String × CoordSpec)} {c : Coordinate}
    (h : mkCoordinate inp = .ok c) :
    c.dims_map = get_dims_map ((dictOfList inp).map Prod.fst)
    ∧ unstack_dict c.dims_map (dictOfList inp) = .ok c.coords
    ∧ validateLoop c.dims_map c.coords [] [] = .ok () := by
  simp only [mkCoordinate] at h
  cases hu : unstack_dict (get_dims_map ((dictOfList inp).map Prod.fst)) (dictOfList inp) with
  | error e => rw [hu] at h; cases h
  | ok uc =>
    rw [hu] at h
    dsimp only at h
    cases hv : validateLoop (get_dims_map ((dictOfList inp).map Prod.fst)) uc [] [] with
    | error e => rw [hv] at h; cases h
    | ok u =>
      rw [hv] at h
      dsimp only at h
      cases h
      exact ⟨rfl, hu, by cases u; exact hv⟩

lemma mk_keys_align {inp : List (String × CoordSpec)} {c : Coordinate}
    (h : mkCoordinate inp = .ok c) :
    c.coords.map Prod.fst = c.dims_map.map Prod.fst := by
  obtain ⟨hdm, hu, _⟩ := mk_ok_inv h
  have hinv := get_dims_map_inv ((dictOfList inp).map Prod.fst)
  have hcond : ∀ kv ∈ dictOfList inp,
      ((c.dims_map.map Prod.fst).contains kv.1 = true ↔ hasUnderscore kv.1 = false) := by
    intro kv hkv
    constructor
    · intro hc
      exact (hdm ▸ hinv).1 kv.1 (by simpa using hc)
    · intro hc
      rw [hdm]
      simp only [List.contains_iff_exists_mem_beq, beq_iff_eq]
      refine ⟨kv.1, ?_, rfl⟩
      exact get_dims_map_plain_mem hc (List.mem_map.mpr ⟨kv, hkv, rfl⟩)
  have := unstack_keys_align c.dims_map (dictOfList inp) hcond [] [] c.coords rfl hu
  rw [this, hdm]
  rfl

lemma mk_keys_nodup {inp : List (String × CoordSpec)} {c : Coordinate}
    (h : mkCoordinate inp = .ok c) : (c.dims_map.map Prod.fst).Nodup := by
  obtain ⟨hdm, _, _⟩ := mk_ok_inv h
  rw [hdm]
  exact get_dims_map_nodup _

/-! ### Validation-loop lemmas -/

lemma validateLoop_valid {dm : List (String × String)} :
    ∀ {l : List (String × Coord1d)} {seen : List String} {sdims : List (String × ℤ)},
      validateLoop dm l seen sdims = .ok () →
      ∀ kv ∈ l, valid_dims.contains kv.1 = true := by
  intro l
  induction l with
  | nil => intro seen sdims _ kv hkv; simp at hkv
  | cons kv0 rest ih =>
    intro seen sdims h kv hkv
    rw [validateLoop] at h
    by_cases h1 : valid_dims.contains kv0.1
    · rw [if_neg (by simpa using h1)] at h
      rcases List.mem_cons.mp hkv with h2 | h2
      · rw [h2]; exact h1
      · by_cases h3 : seen.contains kv0.1
        · rw [if_pos (by simpa using h3)] at h; cases h
        · rw [if_neg (by simpa using h3)] at h
          by_cases h4 : (dm.map Prod.snd).contains kv0.1
          · rw [if_neg (by simpa using h4)] at h
            exact ih h kv h2
          · rw [if_pos (by simpa using h4)] at h
            cases h5 : dictFind? sdims ((dictFind? dm kv0.1).getD "") with
            | none => rw [h5] at h; dsimp only at h; exact ih h kv h2
            | some s =>
              rw [h5] at h
              dsimp only at h
              by_cases h6 : kv0.2.size = s
              · rw [if_neg (by simpa using h6)] at h
                exact ih h kv h2
              · rw [if_pos (by simpa using h6)] at h
                cases h
    · rw [if_pos (by simpa using h1)] at h
      cases h





lemma validateLoop_cons_ok {dm : List (String × String)} {kv0 : String × Coord1d}
    {rest : List (String × Coord1d)} {seen : List String} {sdims : List (String × ℤ)}
    (h : validateLoop dm (kv0 :: rest) seen sdims = .ok ()) :
    valid_dims.contains kv0.1 = true
    ∧ seen.contains kv0.1 = false
    ∧ ((dm.map Prod.snd).contains kv0.1 = true →
        validateLoop dm rest (seen ++ [kv0.1]) sdims = .ok ())
    ∧ ((dm.map Prod.snd).contains kv0.1 = false →
        (dictFind? sdims ((dictFind? dm kv0.1).getD "") = none →
          validateLoop dm rest (seen ++ [kv0.1])
            (dictInsert sdims ((dictFind? dm kv0.1).getD "") kv0.2.size) = .ok ())
        ∧ (∀ s, dictFind? sdims ((dictFind? dm kv0.1).getD "") = some s →
            kv0.2.size = s ∧ validateLoop dm rest (seen ++ [kv0.1]) sdims = .ok ())) := by
  rw [validateLoop] at h
  by_cases h1 : valid_dims.contains kv0.1
  · rw [if_neg (by simpa using h1)] at h
    by_cases h2 : seen.contains kv0.1
    · rw [if_pos (by simpa using h2)] at h; cases h
    · rw [if_neg (by simpa using h2)] at h
      refine ⟨h1, by simpa using h2, ?_, ?_⟩
      · intro h3
        rw [if_neg (by rw [h3]; simp)] at h
        exact h
      · intro h3
        rw [if_pos (by rw [h3]; simp)] at h
        constructor
        · intro h4
          rw [h4] at h
          exact h
        · intro s h4
          rw [h4] at h
          dsimp only at h
          by_cases h5 : kv0.2.size = s
          · rw [if_neg (by simpa using h5)] at h
            exact ⟨h5, h⟩
          · rw [if_pos (by simpa using h5)] at h
            cases h
  · rw [if_pos (by simpa using h1)] at h
    cases h

lemma validateLoop_size_eq {dm : List (String × String)} {k : String} {e : Coord1d} :
    ∀ {l : List (String × Coord1d)} {seen : List String} {sdims : List (String × ℤ)}
      {s : ℤ},
      validateLoop dm l seen sdims = .ok () →
      (k, e) ∈ l →
      (dm.map Prod.snd).contains k = false →
      dictFind? sdims ((dictFind? dm k).getD "") = some s →
      e.size = s := by
  intro l
  induction l with
  | nil => intro seen sdims s _ hmem; simp at hmem
  | cons kv0 rest ih =>
    intro seen sdims s h hmem hstk hsd
    obtain ⟨_, _, hun, hst⟩ := validateLoop_cons_ok h
    rcases List.mem_cons.mp hmem with h1 | h1
    · have hk : kv0.1 = k := by rw [← h1]
      have he : kv0.2 = e := by rw [← h1]
      obtain ⟨_, hsome⟩ := hst (hk ▸ hstk)
      obtain ⟨hz, _⟩ := hsome s (by rw [hk]; exact hsd)
      rw [← he, hz]
    · by_cases hb : (dm.map Prod.snd).contains kv0.1
      · exact ih (hun hb) h1 hstk hsd
      · obtain ⟨hnone, hsome⟩ := hst (by simpa using hb)
        cases hcase : dictFind? sdims ((dictFind? dm kv0.1).getD "") with
        | none =>
          refine ih (hnone hcase) h1 hstk ?_
          by_cases hg : ((dictFind? dm k).getD "") = ((dictFind? dm kv0.1).getD "")
          · rw [hg] at hsd
            rw [hsd] at hcase
            cases hcase
          · rw [dictFind?_insert_ne _ _ _ _ hg]
            exact hsd
        | some s0 =>
          obtain ⟨_, hrec⟩ := hsome s0 hcase
          exact ih hrec h1 hstk hsd

lemma validateLoop_pair_eq {dm : List (String × String)} {k1 k2 : String}
    {e1 e2 : Coord1d} :
    ∀ {l : List (String × Coord1d)} {seen : List String} {sdims : List (String × ℤ)},
      validateLoop dm l seen sdims = .ok () →
      (k1, e1) ∈ l → (k2, e2) ∈ l →
      (dm.map Prod.snd).contains k1 = false →
      (dm.map Prod.snd).contains k2 = false →
      (dictFind? dm k1).getD "" = (dictFind? dm k2).getD "" →
      e1.size = e2.size := by
  intro l
  induction l with
  | nil => intro seen sdims _ hm1; simp at hm1
  | cons kv0 rest ih =>
    intro seen sdims h hm1 hm2 hs1 hs2 hg
    obtain ⟨_, _, hun, hst⟩ := validateLoop_cons_ok h
    rcases List.mem_cons.mp hm1 with ha | ha <;> rcases List.mem_cons.mp hm2 with hb | hb
    · rw [← hb] at ha
      have he12 : e1 = e2 := congrArg Prod.snd ha
      rw [he12]
    · -- (k1,e1) = kv0, (k2,e2) ∈ rest
      have hk : kv0.1 = k1 := by rw [← ha]
      have he : kv0.2 = e1 := by rw [← ha]
      obtain ⟨hnone, hsome⟩ := hst (hk ▸ hs1)
      cases hcase : dictFind? sdims ((dictFind? dm kv0.1).getD "") with
      | none =>
        have hrec := hnone hcase
        have : dictFind?
            (dictInsert sdims ((dictFind? dm kv0.1).getD "") kv0.2.size)
            ((dictFind? dm k2).getD "") = some kv0.2.size := by
          rw [← hg, hk, dictFind?_insert_self]
        have h2s := validateLoop_size_eq hrec hb hs2 this
        rw [← he]
        exact h2s.symm
      | some s0 =>
        obtain ⟨hz, hrec⟩ := hsome s0 hcase
        have : dictFind? sdims ((dictFind? dm k2).getD "") = some s0 := by
          rw [← hg, ← hk]
          exact hcase
        rw [← he, hz]
        exact (validateLoop_size_eq hrec hb hs2 this).symm
    · -- symmetric
      have hk : kv0.1 = k2 := by rw [← hb]
      have he : kv0.2 = e2 := by rw [← hb]
      obtain ⟨hnone, hsome⟩ := hst (hk ▸ hs2)
      cases hcase : dictFind? sdims ((dictFind? dm kv0.1).getD "") with
      | none =>
        have hrec := hnone hcase
        have : dictFind?
            (dictInsert sdims ((dictFind? dm kv0.1).getD "") kv0.2.size)
            ((dictFind? dm k1).getD "") = some kv0.2.size := by
          rw [hg, hk, dictFind?_insert_self]
        have h1s := validateLoop_size_eq hrec ha hs1 this
        rw [← he]
        exact h1s
      | some s0 =>
        obtain ⟨hz, hrec⟩ := hsome s0 hcase
        have : dictFind? sdims ((dictFind? dm k1).getD "") = some s0 := by
          rw [hg, ← hk]
          exact hcase
        rw [← he, hz] at *
        exact validateLoop_size_eq hrec ha hs1 this
    · by_cases hbr : (dm.map Prod.snd).contains kv0.1
      · exact ih (hun hbr) ha hb hs1 hs2 hg
      · obtain ⟨hnone, hsome⟩ := hst (by simpa using hbr)
        cases hcase : dictFind? sdims ((dictFind? dm kv0.1).getD "") with
        | none => exact ih (hnone hcase) ha hb hs1 hs2 hg
        | some s0 =>
          obtain ⟨_, hrec⟩ := hsome s0 hcase
          exact ih hrec ha hb hs1 hs2 hg

lemma dedupLoop_not_seen : ∀ (xs seen : List String) (d : String),
    d ∈ dedupLoop xs seen → d ∉ seen := by
  intro xs
  induction xs with
  | nil => intro seen d h; simp [dedupLoop] at h
  | cons x rest ih =>
    intro seen d h
    by_cases hx : seen.contains x
    · rw [dedupLoop, if_pos hx] at h
      exact ih seen d h
    · rw [dedupLoop, if_neg hx] at h
      rcases List.mem_cons.mp h with h1 | h1
      · subst h1
        simpa using hx
      · intro hd
        exact ih (seen ++ [x]) d h1 (List.mem_append_left _ hd)

def sizeFirst (dm0 : List (String × String)) (l : List (String × Coord1d))
    (d : String) : ℤ :=
  match l.find? (fun kv => ((dictFind? dm0 kv.1).getD "") == d) with
  | some kv => kv.2.size
  | none => 0

lemma sizeFirst_head_ne (dm0 : List (String × String)) (kv : String × Coord1d)
    (rest : List (String × Coord1d)) {d : String}
    (h : ((dictFind? dm0 kv.1).getD "") ≠ d) :
    sizeFirst dm0 (kv :: rest) d = sizeFirst dm0 rest d := by
  rw [sizeFirst, sizeFirst, List.find?_cons_of_neg]
  simpa using h

lemma shapeLoop_spec (dm0 : List (String × String)) :
    ∀ (l : List (String × Coord1d)) (seen : List String),
      shapeLoop dm0 l seen
        = (dedupLoop (l.map fun kv => (dictFind? dm0 kv.1).getD "") seen).map
            (sizeFirst dm0 l) := by
  intro l
  induction l with
  | nil => intro seen; simp [shapeLoop, dedupLoop]
  | cons kv rest ih =>
    intro seen
    by_cases hd : seen.contains ((dictFind? dm0 kv.1).getD "")
    · rw [shapeLoop]
      simp only [if_pos hd]
      rw [List.map_cons, dedupLoop, if_pos hd, ih seen]
      apply List.map_congr_left
      intro d hdmem
      have hne : ((dictFind? dm0 kv.1).getD "") ≠ d := by
        intro hh
        exact dedupLoop_not_seen _ _ _ hdmem (by rw [← hh]; simpa using hd)
      exact (sizeFirst_head_ne dm0 kv rest hne).symm
    · rw [shapeLoop]
      simp only [if_neg hd]
      rw [List.map_cons, dedupLoop, if_neg hd, List.map_cons]
      have hh : sizeFirst dm0 (kv :: rest) ((dictFind? dm0 kv.1).getD "") = kv.2.size := by
        rw [sizeFirst, List.find?_cons_of_pos]
        simp
      rw [hh, ih (seen ++ [(dictFind? dm0 kv.1).getD ""])]
      congr 1
      apply List.map_congr_left
      intro d hdmem
      have hne : ((dictFind? dm0 kv.1).getD "") ≠ d := by
        intro hh2
        exact dedupLoop_not_seen _ _ _ hdmem (by rw [← hh2]; simp)
      exact (sizeFirst_head_ne dm0 kv rest hne).symm

lemma groups_eq_values :
    ∀ (dm : List (String × String)) (l : List (String × Coord1d)),
      (dm.map Prod.fst).Nodup →
      l.map Prod.fst = dm.map Prod.fst →
      l.map (fun kv => (dictFind? dm kv.1).getD "") = dm.map Prod.snd := by
  intro dm
  induction dm with
  | nil =>
    intro l _ halign
    cases l with
    | nil => simp
    | cons kv lr => simp at halign
  | cons kv0 dmr ih =>
    intro l hnd halign
    cases l with
    | nil => simp at halign
    | cons kv lr =>
      simp only [List.map_cons, List.cons.injEq] at halign
      simp only [List.map_cons, List.nodup_cons] at hnd
      simp only [List.map_cons, List.cons.injEq]
      constructor
      · have : dictFind? (kv0 :: dmr) kv.1 = some kv0.2 := by
          rw [dictFind?, if_pos halign.1.symm]
        rw [this]
        rfl
      · have hmapeq : lr.map (fun kv2 => (dictFind? (kv0 :: dmr) kv2.1).getD "")
            = lr.map (fun kv2 => (dictFind? dmr kv2.1).getD "") := by
          apply List.map_congr_left
          intro kv2 hkv2
          have hk2 : kv2.1 ∈ dmr.map Prod.fst := by
            rw [← halign.2]
            exact List.mem_map.mpr ⟨kv2, hkv2, rfl⟩
          have hne : ¬ kv0.1 = kv2.1 := by
            intro hh
            exact hnd.1 (hh ▸ hk2)
          rw [dictFind?, if_neg hne]
        rw [hmapeq]
        exact ih lr hnd.2 halign.2

lemma dictFind?_mem_keys {A : Type} {d : List (String × A)} {k : String}
    (h : k ∈ d.map Prod.fst) : ∃ v, dictFind? d k = some v := by
  induction d with
  | nil => simp at h
  | cons kv rest ih =>
    by_cases h1 : kv.1 = k
    · exact ⟨kv.2, by rw [dictFind?, if_pos h1]⟩
    · simp only [List.map_cons, List.mem_cons] at h
      rcases h with h2 | h2
      · exact absurd h2.symm h1
      · obtain ⟨v, hv⟩ := ih h2
        exact ⟨v, by rw [dictFind?, if_neg h1]; exact hv⟩

/-! ### Intersect / restack round-trip lemmas -/

lemma dictFind?_append {A : Type} (xs ys : List (String × A)) (k : String) :
    dictFind? (xs ++ ys) k
      = match dictFind? xs k with
        | some v => some v
        | none => dictFind? ys k := by
  induction xs with
  | nil => simp [dictFind?]
  | cons kv rest ih =>
    by_cases h : kv.1 = k
    · simp [dictFind?, h]
    · simp only [List.cons_append, dictFind?, if_neg h]
      exact ih

lemma intersectLoop_keys (b : Coordinate) (pad : ℤ) :
    ∀ (l acc new : List (String × Coord1d)),
      intersectLoop b pad l acc = .ok new →
      ((acc ++ l).map Prod.fst).Nodup →
      new.map Prod.fst = (acc ++ l).map Prod.fst := by
  intro l
  induction l with
  | nil =>
    intro acc new h _
    rw [intersectLoop] at h
    cases h
    simp
  | cons kv rest ih =>
    intro acc new h hnd
    have hfresh : ¬ kv.1 ∈ acc.map Prod.fst := by
      intro hmem
      rw [List.map_append, List.nodup_append] at hnd
      exact hnd.2.2 hmem (by simp)
    have hins : dictInsert acc kv.1 kv.2 = acc ++ [(kv.1, kv.2)] :=
      dictInsert_fresh acc kv.1 kv.2 hfresh
    have hrearr : ∀ (e : Coord1d),
        ((acc ++ [(kv.1, e)]) ++ rest).map Prod.fst = ((acc ++ kv :: rest)).map Prod.fst := by
      intro e
      simp
    rw [intersectLoop] at h
    cases hb : dictFind? b.coords kv.1 with
    | none =>
      rw [hb] at h
      dsimp only at h
      have := ih (dictInsert acc kv.1 kv.2) new h ?_
      · rw [this, hins]
        simp
      · rw [hins]
        have : ((acc ++ [(kv.1, kv.2)]) ++ rest).map Prod.fst
            = ((acc ++ kv :: rest)).map Prod.fst := by simp
        rw [this]
        exact hnd
    | some oc =>
      rw [hb] at h
      dsimp only at h
      cases hobj : kv.2.intersect_obj oc pad with
      | error e => rw [hobj] at h; cases h
      | ok res =>
        rw [hobj] at h
        dsimp only at h
        have hins2 : dictInsert acc kv.1 res = acc ++ [(kv.1, res)] :=
          dictInsert_fresh acc kv.1 res hfresh
        have := ih (dictInsert acc kv.1 res) new h ?_
        · rw [this, hins2]
          simp
        · rw [hins2]
          have : ((acc ++ [(kv.1, res)]) ++ rest).map Prod.fst
              = ((acc ++ kv :: rest)).map Prod.fst := by simp
          rw [this]
          exact hnd

lemma intersectLoop_lookup (b : Coordinate) (pad : ℤ) :
    ∀ (l acc new : List (String × Coord1d)),
      intersectLoop b pad l acc = .ok new →
      ((acc ++ l).map Prod.fst).Nodup →
      ∀ k, dictFind? b.coords k = none →
        dictFind? new k = dictFind? (acc ++ l) k := by
  intro l
  induction l with
  | nil =>
    intro acc new h _ k _
    rw [intersectLoop] at h
    cases h
    simp
  | cons kv rest ih =>
    intro acc new h hnd k hbk
    have hfresh : ¬ kv.1 ∈ acc.map Prod.fst := by
      intro hmem
      rw [List.map_append, List.nodup_append] at hnd
      exact hnd.2.2 hmem (by simp)
    rw [intersectLoop] at h
    cases hb : dictFind? b.coords kv.1 with
    | none =>
      rw [hb] at h
      dsimp only at h
      have hins : dictInsert acc kv.1 kv.2 = acc ++ [(kv.1, kv.2)] :=
        dictInsert_fresh acc kv.1 kv.2 hfresh
      rw [hins] at h
      have hnd2 : (((acc ++ [(kv.1, kv.2)]) ++ rest).map Prod.fst).Nodup := by
        have : ((acc ++ [(kv.1, kv.2)]) ++ rest).map Prod.fst
            = ((acc ++ kv :: rest)).map Prod.fst := by simp
        rw [this]; exact hnd
      have hih := ih (acc ++ [(kv.1, kv.2)]) new h hnd2 k hbk
      rw [hih, List.append_assoc, List.singleton_append]
    | some oc =>
      rw [hb] at h
      dsimp only at h
      cases hobj : kv.2.intersect_obj oc pad with
      | error e => rw [hobj] at h; cases h
      | ok res =>
        rw [hobj] at h
        dsimp only at h
        have hkne : k ≠ kv.1 := by
          intro hh
          rw [hh, hb] at hbk
          cases hbk
        have hins : dictInsert acc kv.1 res = acc ++ [(kv.1, res)] :=
          dictInsert_fresh acc kv.1 res hfresh
        rw [hins] at h
        have hnd2 : (((acc ++ [(kv.1, res)]) ++ rest).map Prod.fst).Nodup := by
          have : ((acc ++ [(kv.1, res)]) ++ rest).map Prod.fst
              = ((acc ++ kv :: rest)).map Prod.fst := by simp
          rw [this]; exact hnd
        have hih := ih (acc ++ [(kv.1, res)]) new h hnd2 k hbk
        rw [hih, List.append_assoc, List.singleton_append]
        rw [dictFind?_append acc ((kv.1, res) :: rest) k,
          dictFind?_append acc (kv :: rest) k]
        cases hacck : dictFind? acc k with
        | some v => rfl
        | none =>
          dsimp only
          rw [dictFind?, dictFind?, if_neg (by exact fun hh => hkne hh.symm),
            if_neg (by exact fun hh => hkne (by rw [← hh]))]

def defaultCoord : Coord1d := .single { coords := 0 }

def getC (l : List (String × Coord1d)) (k : String) : Coord1d :=
  match dictFind? l k with
  | some v => v
  | none => defaultCoord

def partsOf (t : String) : List String :=
  if hasUnderscore t then splitUnderscore t else [t]

def dimsOfKey (t : String) : List (String × String) :=
  (partsOf t).map (fun p => (p, t))

def topSpec (l : List (String × Coord1d)) (t : String) : CoordSpec :=
  if hasUnderscore t then .many ((splitUnderscore t).map (getC l))
  else .one (getC l t)

def specOfVals : Coord1d → List Coord1d → CoordSpec
  | e, [] => .one e
  | e, (m :: more) => .many (e :: m :: more)

lemma specAppend_specOfVals (e : Coord1d) (es : List Coord1d) (x : Coord1d) :
    specAppend (specOfVals e es) x = specOfVals e (es ++ [x]) := by
  cases es with
  | nil => rfl
  | cons m more => rfl

lemma splitUnderscoreAux_len2 {l : List Char} (cur : List Char) (h : '_' ∈ l) :
    2 ≤ (splitUnderscoreAux l cur).length := by
  induction l generalizing cur with
  | nil => simp at h
  | cons c rest ih =>
    by_cases hc : c = '_'
    · rw [splitUnderscoreAux, if_pos hc]
      have := splitUnderscoreAux_ne_nil rest []
      simp only [List.length_cons]
      have hlen : 1 ≤ (splitUnderscoreAux rest []).length := by
        cases hh : splitUnderscoreAux rest [] with
        | nil => exact absurd hh this
        | cons a b => simp
      omega
    · rw [splitUnderscoreAux, if_neg hc]
      refine ih (c :: cur) ?_
      rcases List.mem_cons.mp h with h1 | h1
      · exact absurd h1.symm hc
      · exact h1

lemma splitUnderscore_len2 {t : String} (h : hasUnderscore t = true) :
    2 ≤ (splitUnderscore t).length := by
  rw [splitUnderscore]
  refine splitUnderscoreAux_len2 [] ?_
  simpa [hasUnderscore] using h

lemma zip_self_map {A : Type} (l : List String) (f : String → A) :
    l.zip (l.map f) = l.map (fun x => (x, f x)) := by
  induction l with
  | nil => rfl
  | cons x rest ih => simp [List.zip_cons_cons, ih]

lemma pairs_fold_fresh {A : Type} :
    ∀ (ps : List (String × A)) (acc : List (String × A)),
      ((acc ++ ps).map Prod.fst).Nodup →
      ps.foldl (fun a pv => dictInsert a pv.1 pv.2) acc = acc ++ ps := by
  intro ps
  induction ps with
  | nil => intro acc _; simp
  | cons pv rest ih =>
    intro acc hnd
    have hfresh : ¬ pv.1 ∈ acc.map Prod.fst := by
      intro hmem
      rw [List.map_append, List.nodup_append] at hnd
      exact hnd.2.2 hmem (by simp)
    simp only [List.foldl_cons]
    rw [dictInsert_fresh acc pv.1 pv.2 hfresh]
    have hnd2 : (((acc ++ [pv]) ++ rest).map Prod.fst).Nodup := by
      have : ((acc ++ [pv]) ++ rest).map Prod.fst = ((acc ++ pv :: rest)).map Prod.fst := by
        simp
      rw [this]; exact hnd
    have : dictInsert acc pv.1 pv.2 = acc ++ [pv] := by
      rw [dictInsert_fresh acc pv.1 pv.2 hfresh]
    rw [← this]
    rw [this]
    rw [ih (acc ++ [pv]) hnd2, List.append_assoc, List.singleton_append]

lemma dictOfList_nodup_id {A : Type} (l : List (String × A))
    (h : (l.map Prod.fst).Nodup) : dictOfList l = l := by
  have := pairs_fold_fresh l [] (by simpa using h)
  simpa [dictOfList] using this

lemma flat_keys (tops : List String) :
    (tops.flatMap dimsOfKey).map Prod.fst = tops.flatMap partsOf := by
  induction tops with
  | nil => rfl
  | cons t rest ih =>
    simp only [List.flatMap_cons, List.map_append, ih, dimsOfKey, List.map_map]
    congr 1
    simp [Function.comp_def]

lemma partsOf_ne_nil (t : String) : partsOf t ≠ [] := by
  rw [partsOf]
  by_cases h : hasUnderscore t
  · rw [if_pos h]; exact splitUnderscore_ne_nil t
  · rw [if_neg h]; simp

lemma tops_nodup {tops : List String}
    (h : ((tops.flatMap dimsOfKey).map Prod.fst).Nodup) : tops.Nodup := by
  rw [flat_keys] at h
  induction tops with
  | nil => exact List.nodup_nil
  | cons t rest ih =>
    rw [List.flatMap_cons, List.nodup_append] at h
    rw [List.nodup_cons]
    refine ⟨?_, ih h.2.1⟩
    intro hmem
    cases hp : partsOf t with
    | nil => exact absurd hp (partsOf_ne_nil t)
    | cons p ps =>
      have hp1 : p ∈ partsOf t := by rw [hp]; simp
      have hp2 : p ∈ rest.flatMap partsOf :=
        List.mem_flatMap.mpr ⟨t, hmem, hp1⟩
      exact h.2.2 hp1 hp2

lemma dictInsert_append_hit {A : Type} (pref : List (String × A)) (t : String)
    (s v : A) (h : ¬ t ∈ pref.map Prod.fst) :
    dictInsert (pref ++ [(t, s)]) t v = pref ++ [(t, v)] := by
  induction pref with
  | nil => simp [dictInsert]
  | cons kv rest ih =>
    simp only [List.map_cons, List.mem_cons] at h
    push_neg at h
    have hne : ¬ kv.1 = t := fun hh => h.1 hh.symm
    simp only [List.cons_append, dictInsert, if_neg hne]
    exact congrArg₂ List.cons rfl (ih h.2)

lemma dictFind?_append_hit {A : Type} (pref : List (String × A)) (t : String)
    (s : A) (h : ¬ t ∈ pref.map Prod.fst) :
    dictFind? (pref ++ [(t, s)]) t = some s := by
  rw [dictFind?_append, dictFind?_eq_none h]
  simp [dictFind?]

lemma stack_loop_append (coords : List (String × Coord1d)) :
    ∀ (xs ys : List (String × String)) (acc : List (String × CoordSpec)),
      stack_loop coords (xs ++ ys) acc
        = match stack_loop coords xs acc with
          | .error e => .error e
          | .ok acc2 => stack_loop coords ys acc2 := by
  intro xs
  induction xs with
  | nil => intro ys acc; rfl
  | cons kv rest ih =>
    intro ys acc
    rw [List.cons_append, stack_loop, stack_loop]
    cases dictFind? coords kv.1 with
    | none => rfl
    | some c =>
      dsimp only
      cases dictFind? acc kv.2 with
      | some s => exact ih ys _
      | none => exact ih ys _

lemma getC_eq {coords : List (String × Coord1d)} {p : String}
    (h : p ∈ coords.map Prod.fst) : dictFind? coords p = some (getC coords p) := by
  obtain ⟨v, hv⟩ := dictFind?_mem_keys h
  rw [hv, getC, hv]

lemma stack_block_cont (coords : List (String × Coord1d)) (t : String) :
    ∀ (ps : List String) (pref : List (String × CoordSpec)) (e : Coord1d)
      (es : List Coord1d),
      (∀ p ∈ ps, p ∈ coords.map Prod.fst) →
      ¬ t ∈ pref.map Prod.fst →
      stack_loop coords (ps.map (fun p => (p, t))) (pref ++ [(t, specOfVals e es)])
        = .ok (pref ++ [(t, specOfVals e (es ++ ps.map (getC coords)))]) := by
  intro ps
  induction ps with
  | nil => intro pref e es _ _; simp [stack_loop]
  | cons p rest ih =>
    intro pref e es hlk hfresh
    rw [List.map_cons, stack_loop]
    rw [getC_eq (hlk p (List.mem_cons_self _ _))]
    dsimp only
    rw [dictFind?_append_hit pref t (specOfVals e es) hfresh]
    dsimp only
    rw [dictInsert_append_hit pref t _ _ hfresh]
    rw [specAppend_specOfVals]
    have := ih pref e (es ++ [getC coords p])
      (fun q hq => hlk q (List.mem_cons_of_mem _ hq)) hfresh
    rw [this]
    simp

lemma stack_block (coords : List (String × Coord1d)) (t : String)
    (p0 : String) (prest : List String) (acc : List (String × CoordSpec))
    (hfresh : ¬ t ∈ acc.map Prod.fst)
    (hlk : ∀ p ∈ p0 :: prest, p ∈ coords.map Prod.fst) :
    stack_loop coords ((p0 :: prest).map (fun p => (p, t))) acc
      = .ok (acc ++ [(t, specOfVals (getC coords p0) (prest.map (getC coords)))]) := by
  rw [List.map_cons, stack_loop]
  rw [getC_eq (hlk p0 (List.mem_cons_self _ _))]
  dsimp only
  rw [dictFind?_eq_none hfresh]
  dsimp only
  rw [dictInsert_fresh acc t _ hfresh]
  rw [show (CoordSpec.one (getC coords p0)) = specOfVals (getC coords p0) [] from rfl]
  have := stack_block_cont coords t prest acc (getC coords p0) []
    (fun q hq => hlk q (List.mem_cons_of_mem _ hq)) hfresh
  rw [this]
  simp

lemma stack_dict_spec (coords : List (String × Coord1d)) :
    ∀ (tops : List String) (acc : List (String × CoordSpec)),
      ((acc.map Prod.fst) ++ tops).Nodup →
      (∀ t ∈ tops, ∀ p ∈ partsOf t, p ∈ coords.map Prod.fst) →
      stack_loop coords (tops.flatMap dimsOfKey) acc
        = .ok (acc ++ tops.map (fun t => (t, topSpec coords t))) := by
  intro tops
  induction tops with
  | nil => intro acc _ _; simp [stack_loop]
  | cons t rest ih =>
    intro acc hnd hlk
    have hfresh : ¬ t ∈ acc.map Prod.fst := by
      rw [List.nodup_append] at hnd
      intro hmem
      exact hnd.2.2 hmem (by simp)
    rw [List.flatMap_cons, stack_loop_append]
    have hblock : stack_loop coords (dimsOfKey t) acc
        = .ok (acc ++ [(t, topSpec coords t)]) := by
      rw [dimsOfKey]
      by_cases hu : hasUnderscore t
      · have hlen := splitUnderscore_len2 hu
        cases hsp : splitUnderscore t with
        | nil => rw [hsp] at hlen; simp at hlen
        | cons p0 prest =>
          have hlk0 : ∀ p ∈ p0 :: prest, p ∈ coords.map Prod.fst := by
            intro p hp
            refine hlk t (List.mem_cons_self _ _) p ?_
            rw [partsOf, if_pos hu, hsp]
            exact hp
          rw [partsOf, if_pos hu, hsp, stack_block coords t p0 prest acc hfresh hlk0]
          have hne : prest ≠ [] := by
            rw [hsp] at hlen
            cases prest with
            | nil => simp at hlen
            | cons a b => simp
          have : specOfVals (getC coords p0) (prest.map (getC coords))
              = topSpec coords t := by
            cases prest with
            | nil => exact absurd rfl hne
            | cons p1 prest2 =>
              rw [topSpec, if_pos hu, hsp]
              simp [specOfVals]
          rw [this]
      · rw [partsOf, if_neg hu]
        rw [List.map_singleton]
        have hlk0 : t ∈ coords.map Prod.fst := by
          refine hlk t (List.mem_cons_self _ _) t ?_
          rw [partsOf, if_neg hu]
          simp
        rw [show ([(t, t)] : List (String × String)) = [(t, t)] from rfl]
        rw [stack_loop]
        rw [getC_eq hlk0]
        dsimp only
        rw [dictFind?_eq_none hfresh]
        dsimp only
        rw [dictInsert_fresh acc t _ hfresh, stack_loop]
        rw [topSpec, if_neg hu]
    rw [hblock]
    dsimp only
    have hnd2 : (((acc ++ [(t, topSpec coords t)]).map Prod.fst) ++ rest).Nodup := by
      have : ((acc ++ [(t, topSpec coords t)]).map Prod.fst) ++ rest
          = (acc.map Prod.fst) ++ (t :: rest) := by simp
      rw [this]
      exact hnd
    rw [ih (acc ++ [(t, topSpec coords t)]) hnd2
      (fun q hq => hlk q (List.mem_cons_of_mem _ hq))]
    rw [List.append_assoc, List.singleton_append]
    rfl

lemma get_dims_map_loop_flat :
    ∀ (tops : List String) (acc : List (String × String)),
      ((acc.map Prod.fst) ++ tops.flatMap partsOf).Nodup →
      get_dims_map_loop tops acc = acc ++ tops.flatMap dimsOfKey := by
  intro tops
  induction tops with
  | nil => intro acc _; simp [get_dims_map_loop]
  | cons t rest ih =>
    intro acc hnd
    rw [List.flatMap_cons] at hnd
    have hnd1 : ((acc.map Prod.fst ++ partsOf t) ++ rest.flatMap partsOf).Nodup := by
      rw [List.append_assoc]
      exact hnd
    by_cases hu : hasUnderscore t
    · rw [get_dims_map_loop, if_pos hu]
      have hfold : (splitUnderscore t).foldl (fun acc2 cc => dictInsert acc2 cc t) acc
          = acc ++ (splitUnderscore t).map (fun p => (p, t)) := by
        have h1 : (splitUnderscore t).foldl (fun acc2 cc => dictInsert acc2 cc t) acc
            = ((splitUnderscore t).map (fun p => (p, t))).foldl
                (fun a pv => dictInsert a pv.1 pv.2) acc := by
          rw [List.foldl_map]
        rw [h1]
        refine pairs_fold_fresh _ acc ?_
        have : ((acc ++ (splitUnderscore t).map fun p => (p, t)).map Prod.fst)
            = acc.map Prod.fst ++ partsOf t := by
          simp [partsOf, if_pos hu, Function.comp_def]
        rw [this]
        exact hnd1.of_append_left
      rw [hfold]
      rw [ih (acc ++ (splitUnderscore t).map fun p => (p, t)) ?_]
      · rw [List.append_assoc]
        congr 1
        simp [dimsOfKey, partsOf, hu]
      · have : ((acc ++ (splitUnderscore t).map fun p => (p, t)).map Prod.fst)
            = acc.map Prod.fst ++ partsOf t := by
          simp [partsOf, if_pos hu, Function.comp_def]
        rw [this]
        exact hnd1
    · rw [get_dims_map_loop, if_neg hu]
      have hfresh : ¬ t ∈ acc.map Prod.fst := by
        have hmem : t ∈ partsOf t := by rw [partsOf, if_neg hu]; simp
        intro hcon
        have : ((acc.map Prod.fst ++ partsOf t)).Nodup := hnd1.of_append_left
        rw [List.nodup_append] at this
        exact this.2.2 hcon hmem
      rw [dictInsert_fresh acc t t hfresh]
      rw [ih (acc ++ [(t, t)]) ?_]
      · rw [List.append_assoc]
        congr 1
        simp [dimsOfKey, partsOf, hu]
      · have : ((acc ++ [(t, t)]).map Prod.fst) = acc.map Prod.fst ++ partsOf t := by
          simp [partsOf, if_neg hu]
        rw [this]
        exact hnd1

lemma flat_parts_no_underscore (tops : List String) :
    ∀ k ∈ tops.flatMap partsOf, hasUnderscore k = false := by
  intro k hk
  obtain ⟨t, _, hkt⟩ := List.mem_flatMap.mp hk
  rw [partsOf] at hkt
  by_cases hu : hasUnderscore t
  · rw [if_pos hu] at hkt
    exact splitUnderscore_no_underscore t k hkt
  · rw [if_neg hu] at hkt
    rw [List.mem_singleton] at hkt
    subst hkt
    simpa using hu

lemma unstack_loop_spec (dm : List (String × String)) (new : List (String × Coord1d))
    (hdmK : ∀ k ∈ dm.map Prod.fst, hasUnderscore k = false) :
    ∀ (tops : List String) (acc : List (String × Coord1d)),
      ((acc.map Prod.fst) ++ tops.flatMap partsOf).Nodup →
      (∀ t ∈ tops, hasUnderscore t = false → t ∈ dm.map Prod.fst) →
      unstack_loop dm (tops.map (fun t => (t, topSpec new t))) acc
        = .ok (acc ++ (tops.flatMap partsOf).map (fun k => (k, getC new k))) := by
  intro tops
  induction tops with
  | nil => intro acc _ _; simp [unstack_loop]
  | cons t rest ih =>
    intro acc hnd hplain
    rw [List.flatMap_cons] at hnd ⊢
    have hnd1 : ((acc.map Prod.fst ++ partsOf t) ++ rest.flatMap partsOf).Nodup := by
      rw [List.append_assoc]; exact hnd
    rw [List.map_cons, unstack_loop]
    by_cases hu : hasUnderscore t
    · have hnotmem : ¬ ((dm.map Prod.fst).contains t = true) := by
        intro hcon
        have : t ∈ dm.map Prod.fst := by simpa using hcon
        have := hdmK t this
        rw [hu] at this
        cases this
      rw [if_neg hnotmem]
      rw [topSpec, if_pos hu]
      dsimp only
      rw [if_pos (by simp)]
      have hfold : ((splitUnderscore t).zip ((splitUnderscore t).map (getC new))).foldl
          (fun a pv => dictInsert a pv.1 pv.2) acc
          = acc ++ (splitUnderscore t).map (fun p => (p, getC new p)) := by
        rw [zip_self_map]
        refine pairs_fold_fresh _ acc ?_
        have : ((acc ++ (splitUnderscore t).map fun p => (p, getC new p)).map Prod.fst)
            = acc.map Prod.fst ++ partsOf t := by
          simp [partsOf, if_pos hu, Function.comp_def]
        rw [this]
        exact hnd1.of_append_left
      rw [hfold]
      rw [ih (acc ++ (splitUnderscore t).map fun p => (p, getC new p)) ?_
        (fun q hq hq2 => hplain q (List.mem_cons_of_mem _ hq) hq2)]
      · rw [List.append_assoc]
        congr 2
        rw [partsOf, if_pos hu]
        simp
      · have : ((acc ++ (splitUnderscore t).map fun p => (p, getC new p)).map Prod.fst)
            = acc.map Prod.fst ++ partsOf t := by
          simp [partsOf, if_pos hu, Function.comp_def]
        rw [this]
        exact hnd1
    · have hmem : (dm.map Prod.fst).contains t = true := by
        have := hplain t (List.mem_cons_self _ _) (by simpa using hu)
        simpa using this
      rw [if_pos hmem]
      rw [topSpec, if_neg hu]
      dsimp only
      have hfresh : ¬ t ∈ acc.map Prod.fst := by
        have hm : t ∈ partsOf t := by rw [partsOf, if_neg hu]; simp
        intro hcon
        have : ((acc.map Prod.fst ++ partsOf t)).Nodup := hnd1.of_append_left
        rw [List.nodup_append] at this
        exact this.2.2 hcon hm
      rw [dictInsert_fresh acc t _ hfresh]
      rw [ih (acc ++ [(t, getC new t)]) ?_
        (fun q hq hq2 => hplain q (List.mem_cons_of_mem _ hq) hq2)]
      · rw [List.append_assoc]
        congr 2
        rw [partsOf, if_neg hu]
        rfl
      · have : ((acc ++ [(t, getC new t)]).map Prod.fst)
            = acc.map Prod.fst ++ partsOf t := by
          simp [partsOf, if_neg hu]
        rw [this]
        exact hnd1

lemma assoc_rebuild :
    ∀ (l : List (String × Coord1d)), (l.map Prod.fst).Nodup →
      (l.map Prod.fst).map (fun k => (k, getC l k)) = l := by
  intro l
  induction l with
  | nil => intro h; rfl
  | cons kv rest ih =>
    intro hnd
    simp only [List.map_cons, List.nodup_cons] at hnd ⊢
    have h1 : getC (kv :: rest) kv.1 = kv.2 := by
      rw [getC, dictFind?, if_pos rfl]
    rw [h1]
    refine congrArg₂ List.cons rfl ?_
    have hcongr : (rest.map Prod.fst).map (fun k => (k, getC (kv :: rest) k))
        = (rest.map Prod.fst).map (fun k => (k, getC rest k)) := by
      apply List.map_congr_left
      intro k hk
      have hne : ¬ kv.1 = k := by
        intro hh
        exact hnd.1 (hh ▸ hk)
      rw [getC, dictFind?, if_neg hne, ← getC]
    rw [hcongr]
    exact ih hnd.2

/-! ### Concrete instances used by the claims -/

def uniN (a b : ℚ) (n : ℤ) : Coord1d := .uniform { start := a, stop := b, num := some n }

def latLonTime : Coordinate :=
  { dims_map := [("lat", "lat_lon"), ("lon", "lat_lon"), ("time", "time")],
    coords := [("lat", uniN 0 1 3), ("lon", uniN 5 6 3), ("time", uniN 0 1 2)] }

def aFreak : Coordinate :=
  { dims_map := [("lon", "lat_lon"), ("lat", "lat_lon")],
    coords := [("lon", uniN 5 6 3), ("lat", uniN 0 1 3)] }

def bTime : Coordinate :=
  { dims_map := [("time", "time")], coords := [("time", uniN 0 1 2)] }

def bAlt : Coordinate :=
  { dims_map := [("alt", "alt")], coords := [("alt", uniN 2 3 2)] }

/-- `UniformGridCoord(start=0, stop=50, step=10)`. -/
def u0_50 : UniformGridCoord := { start := 0, stop := 50, step := some 10 }

/-- `UniformGridCoord(start=20, stop=70, step=10)`. -/
def u20_70 : UniformGridCoord := { start := 20, stop := 70, step := some 10 }

/-- `GridCoord(coords=[1., 2.])`. -/
def grid12 : Coord1d := .grid { coords := [1, 2] }

/-- `GridCoord(coords=[5., 6.])`. -/
def grid56 : Coord1d := .grid { coords := [5, 6] }

/-- `SingleCoord(1.)`. -/
def single1 : Coord1d := .single { coords := 1 }

/-! ### C1 -/

/-- C1: the claim says `UniformCoordinates1d(0, 50, 10)` has coordinates
`[0, 10, 20, 30, 40, 50]`, `size == 6` and `is_descending == False`, and in
general that size counts the step-multiples from start through stop.  On
the code the coordinates and descending flag are as claimed, but
`UniformGridCoord.size` computes `max(0, ceil((start - stop) / step))`,
which is `0` for this (and every other direction-consistent) uniform
coordinate — contradicting the six-element `coordinates` array of the same
object and the repository's own test `test_numerical`. -/
theorem uniform_size_contradicts_coordinates :
    u0_50.coordinates = [0, 10, 20, 30, 40, 50]
    ∧ u0_50.coordinates.length = 6
    ∧ u0_50.is_max_to_min = false
    ∧ u0_50.size = 0 := by
  have hc : u0_50.coordinates = [0, 10, 20, 30, 40, 50] := by
    show npArange 0 (50 + u0_50.delta) 10 = _
    rw [show (50 + u0_50.delta : ℚ) = 60 from by norm_num [u0_50, UniformGridCoord.delta]]
    rw [npArange_eval 0 60 10 6 (intCeil_eval _ _ (by norm_num) (by norm_num))]
    simp [List.range_succ]
    norm_num
  refine ⟨hc, by rw [hc]; rfl, ?_, ?_⟩
  · norm_num [u0_50, UniformGridCoord.is_max_to_min]
  · show max 0 ⌈((0 : ℚ) - 50) / (10 : ℚ)⌉ = 0
    rw [intCeil_eval (((0 : ℚ) - 50) / (10 : ℚ)) (-5) (by norm_num) (by norm_num)]
    decide

/-! ### C2 -/

/-- C2: the claim says selecting bounds `[45, 100]` from the uniform
coordinate `(start=20, stop=70, step=10)` returns exactly the in-interval
values, i.e. `start=50, stop=70, step=10`.  The code
(`UniformGridCoord.intersect_bounds`, default `pad=1`) instead
floor-rounds the start index outward and widens by `pad` steps, returning
`start=30, stop=70, step=10`, contradicting the repository's own test
`test_select_ascending` (which asserts `start == 50`). -/
theorem uniform_select_bounds_diverges :
    (u20_70.intersect_bounds_obj (45, 100) 1).1
      = { start := 30, stop := 70, num := none, step := some 10, units := none }
    ∧ (u20_70.intersect_bounds_obj (45, 100) 1).1.start ≠ 50 := by
  have h : (u20_70.intersect_bounds_obj (45, 100) 1).1
      = { start := 30, stop := 70, num := none, step := some 10, units := none } := by
    simp only [u20_70, UniformGridCoord.intersect_bounds_obj, UniformGridCoord.clipBounds,
      UniformGridCoord.bounds, UniformGridCoord.is_max_to_min, UniformGridCoord.delta]
    norm_num
  refine ⟨h, ?_⟩
  rw [h]
  norm_num

/-! ### C3 -/

/-- C3: the claim says the index-returning selection variant is always
consistent with the object-returning variant
(`c.coordinates[I] == s.coordinates`).  On the code, for the uniform
coordinate `(20, 70, step=10)` and bounds `[45, 100]`, the index variant
returns the empty range `[0, 0]` (its clamping uses the broken `size`
property, which is 0 here), while the object variant returns the uniform
coordinate `(30, 70, step=10)` with five coordinate values — so indexing
the coordinates with the returned range gives `[]`, not the subset's
values, contradicting the repository's own test `test_select_ind_ascending`. -/
theorem select_ind_obj_inconsistent :
    (u20_70.intersect_bounds_ind (45, 100) 1).1 = (0, 0)
    ∧ pySlice (Coord1d.uniform u20_70).coordinates 0 0 = []
    ∧ ((u20_70.intersect_bounds_obj (45, 100) 1).1).coordinates = [30, 40, 50, 60, 70]
    ∧ ([] : List ℚ) ≠ [30, 40, 50, 60, 70] := by
  refine ⟨?_, ?_, ?_, by simp⟩
  · simp only [u20_70, UniformGridCoord.intersect_bounds_ind, UniformGridCoord.clipBounds,
      UniformGridCoord.bounds, UniformGridCoord.is_max_to_min, UniformGridCoord.delta,
      UniformGridCoord.size]
    norm_num
    rw [intCeil_eval (-5 : ℚ) (-5) (by norm_num) (by norm_num)]
    exact ⟨by decide, by decide⟩
  · simp [pySlice]
  · have h : (u20_70.intersect_bounds_obj (45, 100) 1).1
        = { start := 30, stop := 70, num := none, step := some 10, units := none } := by
      simp only [u20_70, UniformGridCoord.intersect_bounds_obj, UniformGridCoord.clipBounds,
        UniformGridCoord.bounds, UniformGridCoord.is_max_to_min, UniformGridCoord.delta]
      norm_num
    rw [h]
    show npArange 30 (70 + 10) 10 = _
    rw [show (70 : ℚ) + 10 = 80 from by norm_num]
    rw [npArange_eval 30 80 10 5 (intCeil_eval _ _ (by norm_num) (by norm_num))]
    simp [List.range_succ]
    norm_num

/-! ### C4 -/

/-- C4: the claim says intersecting with disjoint bounds never raises and
yields an empty (size-0) coordinate.  The index-returning variant does
return the empty range `[0, 0]`, but the object-returning short-circuit
`self.__class__(coords=(self.bounds[0], self.bounds[1], 0))` in
`Coord.intersect_check` only produces an empty coordinate for
`UniformGridCoord`: for `GridCoord` it produces a *three-element*
coordinate `[lower, upper, 0]`, and for `SingleCoord` the constructor
raises "SingleCoord cannot have multiple values". -/
theorem disjoint_intersect_not_empty :
    grid12.intersect_obj grid56 1 = .ok (.grid { coords := [1, 2, 0], units := none })
    ∧ (Coord1d.grid { coords := [1, 2, 0], units := none }).size = 3
    ∧ (Coord1d.grid { coords := [1, 2, 0], units := none }).size ≠ 0
    ∧ grid12.intersect_ind grid56 1 = .ok (0, 0)
    ∧ single1.intersect_obj grid56 1 = .error "SingleCoord cannot have multiple values" := by
  have hb12 : (GridCoord.mk [1, 2] none).bounds = (1, 2) := by
    simp [GridCoord.bounds, npMin, npMax]
  have hb12c : grid12.bounds = (1, 2) := hb12
  have hb56 : grid56.bounds = (5, 6) := by
    simp [grid56, Coord1d.bounds, GridCoord.bounds, npMin, npMax]
    norm_num
  have hu : grid12.units = grid56.units := by simp [grid12, grid56, Coord1d.units]
  have hcheck : grid12.intersect_check_obj grid56 = (grid12.emptyLike).map some := by
    rw [Coord1d.intersect_check_obj, if_neg (by simp [hu]),
      if_neg (by rw [hb12c, hb56]; simp [Prod.ext_iff]),
      if_pos (by rw [hb12c, hb56]; norm_num)]
  have hempty : grid12.emptyLike = .ok (.grid { coords := [1, 2, 0], units := none }) := by
    simp only [grid12, Coord1d.emptyLike, hb12]
    rfl
  refine ⟨?_, by rfl, by decide, ?_, ?_⟩
  · rw [Coord1d.intersect_obj, hcheck, hempty]
    rfl
  · rw [Coord1d.intersect_ind, Coord1d.intersect_check_ind, if_neg (by simp [hu]),
      if_neg (by rw [hb12c, hb56]; simp [Prod.ext_iff]),
      if_pos (by rw [hb12c, hb56]; norm_num)]
  · have hbs : single1.bounds = (1 - sqrtEpsFloat32, 1 + sqrtEpsFloat32) := by
      simp [single1, Coord1d.bounds, SingleCoord.bounds, SingleCoord.delta]
    have hus : single1.units = grid56.units := by simp [single1, grid56, Coord1d.units]
    rw [Coord1d.intersect_obj, Coord1d.intersect_check_obj, if_neg (by simp [hus]),
      if_neg (by rw [hbs, hb56]; simp [Prod.ext_iff, sqrtEpsFloat32]; norm_num),
      if_pos (by rw [hbs, hb56]; simp [sqrtEpsFloat32]; norm_num)]
    rfl

/-! ### C5 -/

/-- C5 counterexample: the claim says every 1-d coordinate's `bounds`
equals the ascending pair (min, max) of its coordinate values.  This fails
in two places.  For the single-value coordinate `SingleCoord(5.)` (whose
only coordinate value is 5) the code widens the bounds by
`delta = sqrt(float32 eps)` on each side, so `bounds ≠ (5, 5)`.  And for
the uniform coordinate `UniformGridCoord(0, 55, step=10)` the coordinates
are `arange(0, 55 + 10, 10) = [0, 10, 20, 30, 40, 50, 60]` — arange
overshoots `stop` because the step does not evenly divide the span — with
maximum value 60, while `bounds` is the endpoint pair `(0, 55)`, so there
too `bounds ≠ (min, max)` of the coordinate values. -/
theorem bounds_not_value_minmax :
    ((SingleCoord.mk 5 none).coordinates = [5]
      ∧ (SingleCoord.mk 5 none).bounds ≠ (npMin [5], npMax [5]))
    ∧ ((UniformGridCoord.mk 0 55 none (some 10) none).coordinates
          = [0, 10, 20, 30, 40, 50, 60]
      ∧ (UniformGridCoord.mk 0 55 none (some 10) none).bounds = (0, 55)
      ∧ (UniformGridCoord.mk 0 55 none (some 10) none).bounds
          ≠ (npMin [0, 10, 20, 30, 40, 50, 60],
             npMax [0, 10, 20, 30, 40, 50, 60])) := by
  have hu : (UniformGridCoord.mk 0 55 none (some 10) none).bounds = (0, 55) := by
    norm_num [UniformGridCoord.bounds, UniformGridCoord.is_max_to_min]
  have hmm : (npMin [(0 : ℚ), 10, 20, 30, 40, 50, 60],
      npMax [(0 : ℚ), 10, 20, 30, 40, 50, 60]) = (0, 60) := by
    norm_num [npMin, npMax, min_def, max_def]
  refine ⟨⟨rfl, ?_⟩, ?_, hu, ?_⟩
  · have h5 : (npMin [(5 : ℚ)], npMax [(5 : ℚ)]) = (5, 5) := by
      norm_num [npMin, npMax]
    rw [h5]
    simp only [SingleCoord.bounds, SingleCoord.delta, sqrtEpsFloat32, Prod.ext_iff, ne_eq,
      not_and]
    intro h
    norm_num at h
  · show npArange 0 (55 + (UniformGridCoord.mk 0 55 none (some 10) none).delta) 10 = _
    rw [show (55 + (UniformGridCoord.mk 0 55 none (some 10) none).delta : ℚ) = 65 from by
      norm_num [UniformGridCoord.delta]]
    rw [npArange_eval 0 65 10 7 (intCeil_eval _ _ (by norm_num) (by norm_num))]
    simp [List.range_succ]
    norm_num
  · rw [hu, hmm]
    simp only [Prod.ext_iff, ne_eq, not_and]
    intro h
    norm_num

/-- C5 (amended): for array-backed coordinates `bounds` is the ascending
(min, max) pair of the coordinate values; for uniform coordinates it is
the ascending pair of the two endpoints `(min(start, stop), max(start,
stop))`, which is not in general the (min, max) of the coordinate values
because arange can overshoot `stop`; for single-value coordinates it is
the value widened by the positive constant `sqrt(float32 eps)` on each
side (not the (min, max) pair of the values); and a numeric uniform
coordinate's `is_max_to_min` holds exactly when `start > stop`. -/
theorem bounds_minmax_amended :
    (∀ g : GridCoord, g.coords ≠ [] →
        g.bounds.1 ∈ g.coords ∧ g.bounds.2 ∈ g.coords ∧
          ∀ x ∈ g.coords, g.bounds.1 ≤ x ∧ x ≤ g.bounds.2)
    ∧ (∀ u : UniformGridCoord, u.bounds = (min u.start u.stop, max u.start u.stop))
    ∧ (∀ s : SingleCoord,
        s.bounds = (s.coords - sqrtEpsFloat32, s.coords + sqrtEpsFloat32)
          ∧ 0 < sqrtEpsFloat32)
    ∧ (∀ u : UniformGridCoord, u.is_max_to_min = true ↔ u.stop < u.start) := by
  refine ⟨?_, ?_, ?_, ?_⟩
  · exact fun g hg => ⟨npMin_mem hg, npMax_mem hg,
      fun x hx => ⟨foldl_min_le_mem hx _, foldl_max_mem_le hx _⟩⟩
  · intro u
    rw [UniformGridCoord.bounds, UniformGridCoord.is_max_to_min]
    rcases lt_or_le u.stop u.start with h | h
    · rw [if_pos (by simpa using h), min_eq_right h.le, max_eq_left h.le]
    · rw [if_neg (by simpa using not_lt.mpr h), min_eq_left h, max_eq_right h]
  · exact fun s => ⟨rfl, by rw [sqrtEpsFloat32]; norm_num⟩
  · intro u
    simp [UniformGridCoord.is_max_to_min]

/-- C5 witness: the amended bounds description instantiated on the
array-backed coordinate `[3, 1, 2]`, the descending uniform coordinate
`(50, 0, step=-10)` and the single coordinate `5`. -/
theorem bounds_minmax_amended_witness :
    (GridCoord.mk [3, 1, 2] none).bounds.1 ∈ [(3 : ℚ), 1, 2]
    ∧ (GridCoord.mk [3, 1, 2] none).bounds.2 ∈ [(3 : ℚ), 1, 2]
    ∧ (GridCoord.mk [3, 1, 2] none).bounds.1 ≤ 1
    ∧ (UniformGridCoord.mk 50 0 none (some (-10)) none).bounds
        = (min (50 : ℚ) 0, max (50 : ℚ) 0)
    ∧ (SingleCoord.mk 5 none).bounds = (5 - sqrtEpsFloat32, 5 + sqrtEpsFloat32)
    ∧ ((UniformGridCoord.mk 50 0 none (some (-10)) none).is_max_to_min = true
        ↔ (0 : ℚ) < 50) := by
  obtain ⟨hg, hu, hs, hd⟩ := bounds_minmax_amended
  obtain ⟨h1, h2, h3⟩ := hg (GridCoord.mk [3, 1, 2] none) (by simp)
  exact ⟨h1, h2, (h3 1 (by simp)).1, hu _, (hs _).1, hd _⟩

/-! ### C10 -/

/-- C10: `UniformGridCoord.intersect_bounds` (both variants) writes into
the caller-supplied `bounds` argument before computing anything else,
replacing its first entry with `max(self.bounds[0], bounds[0])` and its
second with `min(self.bounds[1], bounds[1])`; e.g. for the coordinate
`(20, 70, step=10)` and argument `[45, 100]` the caller's sequence ends up
as `[45, 70]`, different from what was passed in. -/
theorem uniform_intersect_bounds_mutates_arg :
    (∀ (c : UniformGridCoord) (b : ℚ × ℚ) (pad : ℤ),
        (c.intersect_bounds_obj b pad).2 = (max c.bounds.1 b.1, min c.bounds.2 b.2)
        ∧ (c.intersect_bounds_ind b pad).2 = (max c.bounds.1 b.1, min c.bounds.2 b.2))
    ∧ (u20_70.intersect_bounds_obj (45, 100) 1).2 = (45, 70)
    ∧ ((45 : ℚ), (70 : ℚ)) ≠ (45, 100) := by
  refine ⟨fun c b pad => ⟨rfl, rfl⟩, ?_, ?_⟩
  · show u20_70.clipBounds (45, 100) = (45, 70)
    simp only [u20_70, UniformGridCoord.clipBounds, UniformGridCoord.bounds,
      UniformGridCoord.is_max_to_min]
    norm_num
  · simp only [Prod.ext_iff, ne_eq, not_and]
    intro h
    norm_num

/-! ### C6 -/

/-- C6: constructing a stacked coordinate from components of unequal sizes
(3 and 4) raises the size-mismatch error, and for every successfully
constructed `Coordinate` any two components stored under the same stacked
key report equal sizes. -/
theorem stacked_size_mismatch :
    mkCoordinate [("lat_lon", .many [uniN 0 1 3, uniN 0 1 4])]
      = .error "Stacked dimensions need to have the same size"
    ∧ (uniN 0 1 3).size = 3 ∧ (uniN 0 1 4).size = 4
    ∧ (∀ (inp : List (String × CoordSpec)) (c : Coordinate),
        mkCoordinate inp = .ok c →
        ∀ (k1 k2 : String) (e1 e2 : Coord1d),
          (k1, e1) ∈ c.coords → (k2, e2) ∈ c.coords →
          (c.dims_map.map Prod.snd).contains k1 = false →
          (c.dims_map.map Prod.snd).contains k2 = false →
          (dictFind? c.dims_map k1).getD "" = (dictFind? c.dims_map k2).getD "" →
          e1.size = e2.size) := by
  refine ⟨rfl, rfl, rfl, ?_⟩
  intro inp c h k1 k2 e1 e2 hm1 hm2 hs1 hs2 hg
  obtain ⟨_, _, hv⟩ := mk_ok_inv h
  exact validateLoop_pair_eq hv hm1 hm2 hs1 hs2 hg

/-- C6 witness: the success half of `stacked_size_mismatch` instantiated
on the equal-size construction `Coordinate(lat_lon=((0,1,3),(5,6,3)))`. -/
theorem stacked_size_mismatch_witness :
    (uniN 0 1 3).size = (uniN 5 6 3).size := by
  have h := stacked_size_mismatch.2.2.2
    [("lat_lon", .many [uniN 0 1 3, uniN 5 6 3])]
    { dims_map := [("lat", "lat_lon"), ("lon", "lat_lon")],
      coords := [("lat", uniN 0 1 3), ("lon", uniN 5 6 3)] }
    rfl "lat" "lon" (uniN 0 1 3) (uniN 5 6 3)
    (by simp) (by simp) rfl rfl rfl
  exact h

/-- C9: `Coordinate` construction accepts only the dimension names
`time`, `lat`, `lon` and `alt` (alone or as components of a compound key):
a construction with the plain key `foo` or the compound key `lat_foo`
raises the invalid-dimension error, and every successfully constructed
`Coordinate` stores only valid dimension names. -/
theorem invalid_dimension_rejected :
    mkCoordinate [("foo", .one (uniN 0 1 2))]
      = .error "The foo dimension is not a valid dimension"
    ∧ mkCoordinate [("lat_foo", .many [uniN 0 1 3, uniN 5 6 3])]
      = .error "The foo dimension is not a valid dimension"
    ∧ valid_dims = ["time", "lat", "lon", "alt"]
    ∧ (∀ (inp : List (String × CoordSpec)) (c : Coordinate),
        mkCoordinate inp = .ok c →
        ∀ kv ∈ c.coords, kv.1 ∈ valid_dims) := by
  refine ⟨rfl, rfl, rfl, ?_⟩
  intro inp c h kv hkv
  obtain ⟨_, _, hv⟩ := mk_ok_inv h
  have := validateLoop_valid hv kv hkv
  simpa using this

/-- C9 witness: the success half of `invalid_dimension_rejected`
instantiated on `Coordinate(time=(0,1,2))`. -/
theorem invalid_dimension_rejected_witness :
    "time" ∈ valid_dims := by
  have h := invalid_dimension_rejected.2.2.2
    [("time", .one (uniN 0 1 2))]
    { dims_map := [("time", "time")], coords := [("time", uniN 0 1 2)] }
    rfl ("time", uniN 0 1 2) (by simp)
  exact h

/-- C7: for every successfully constructed `Coordinate`, `shape` is the
list of per-key sizes in stored dims order, with a stacked compound key
contributing a single entry whose value is its components' common size
(validation forces every component of a stacked key to that size), and the
spec-modelled `size` property (`totalSize`) equals the product of the
shape entries. -/
theorem shape_per_key_sizes :
    ∀ (inp : List (String × CoordSpec)) (c : Coordinate),
      mkCoordinate inp = .ok c →
      c.shape = c.dims.map c.keySize
      ∧ (∀ kv ∈ c.coords, (c.dims_map.map Prod.snd).contains kv.1 = false →
          kv.2.size = c.keySize ((dictFind? c.dims_map kv.1).getD ""))
      ∧ c.totalSize = c.shape.prod := by
  intro inp c h
  have hnd := mk_keys_nodup h
  have hal := mk_keys_align h
  obtain ⟨hdm, _, hv⟩ := mk_ok_inv h
  have hinv : DmInv c.dims_map := hdm ▸ get_dims_map_inv _
  refine ⟨?_, ?_, rfl⟩
  · rw [Coordinate.shape, shapeLoop_spec, groups_eq_values c.dims_map c.coords hnd hal]
    rfl
  · intro kv hkv hstk
    cases hf : c.coords.find?
        (fun kv2 => ((dictFind? c.dims_map kv2.1).getD "")
          == ((dictFind? c.dims_map kv.1).getD "")) with
    | none =>
      exfalso
      have := List.find?_eq_none.mp hf kv hkv
      simp at this
    | some kv0 =>
      have hp := List.find?_some hf
      have hm0 := List.mem_of_find?_eq_some hf
      have hg0 : (dictFind? c.dims_map kv0.1).getD ""
          = (dictFind? c.dims_map kv.1).getD "" := by simpa using hp
      have hstk0 : (c.dims_map.map Prod.snd).contains kv0.1 = false := by
        by_contra hcon
        have hcon2 : kv0.1 ∈ c.dims_map.map Prod.snd := by
          rcases Bool.eq_false_or_eq_true ((c.dims_map.map Prod.snd).contains kv0.1)
            with h1 | h1
          · simpa using h1
          · exact absurd h1 hcon
        obtain ⟨en, hen, heny⟩ := List.mem_map.mp hcon2
        have hk0keys : kv0.1 ∈ c.dims_map.map Prod.fst := by
          rw [← hal]
          exact List.mem_map.mpr ⟨kv0, hm0, rfl⟩
        have hund0 : hasUnderscore kv0.1 = false := hinv.1 kv0.1 hk0keys
        have hxeq : en.1 = en.2 := hinv.2 en hen (heny ▸ hund0)
        have hself : (kv0.1, kv0.1) ∈ c.dims_map := by
          have : en = (kv0.1, kv0.1) := by
            cases en
            simp only at heny hxeq
            rw [Prod.mk.injEq]
            exact ⟨hxeq.trans heny, heny⟩
          exact this ▸ hen
        have hfind0 : dictFind? c.dims_map kv0.1 = some kv0.1 :=
          dictFind?_nodup_mem hnd hself
        have hd0 : (dictFind? c.dims_map kv0.1).getD "" = kv0.1 := by rw [hfind0]; rfl
        have hkkeys : kv.1 ∈ c.dims_map.map Prod.fst := by
          rw [← hal]
          exact List.mem_map.mpr ⟨kv, hkv, rfl⟩
        obtain ⟨w, hw⟩ := dictFind?_mem_keys hkkeys
        have hwd : w = kv0.1 := by
          have : (dictFind? c.dims_map kv.1).getD "" = w := by rw [hw]; rfl
          rw [← hd0, hg0, this]
        have hwmem : (kv.1, w) ∈ c.dims_map := (dictFind?_isSome_mem hw).1
        have hwu : hasUnderscore w = false := hwd ▸ hund0
        have hkw : kv.1 = w := hinv.2 (kv.1, w) hwmem hwu
        have hkval : kv.1 ∈ c.dims_map.map Prod.snd := by
          rw [hkw]
          exact List.mem_map.mpr ⟨(kv.1, w), hwmem, rfl⟩
        have hcontra : (c.dims_map.map Prod.snd).contains kv.1 = true := by
          simpa using hkval
        rw [hcontra] at hstk
        cases hstk
      have hpair := validateLoop_pair_eq hv hkv hm0 hstk hstk0 hg0.symm
      rw [Coordinate.keySize, hf]
      exact hpair

/-- C7 witness: `shape_per_key_sizes` instantiated on
`Coordinate(lat_lon=((0,1,3),(5,6,3)), time=(0,1,2))`, whose shape is
`(3, 2)` and size `6`. -/
theorem shape_per_key_sizes_witness :
    latLonTime.shape = [3, 2] ∧ latLonTime.totalSize = 6 := by
  have h := shape_per_key_sizes
    [("lat_lon", .many [uniN 0 1 3, uniN 5 6 3]), ("time", .one (uniN 0 1 2))]
    latLonTime rfl
  obtain ⟨h1, _, h3⟩ := h
  constructor
  · rw [h1]; rfl
  · rw [h3, h1]; rfl

/-! ### C8 -/

/-- C8 counterexample: the claim fails as stated.  The constructible
coordinate `Coordinate(lon=..., lat=..., lat_lon=(c1, c2))` silently maps
the duplicated `lat`/`lon` names into the stacked `lat_lon` key in
reversed member order; intersecting it with a coordinate that shares no
key (so every key of A is "absent from B") succeeds but returns a
`Coordinate` whose `lat` entry is A's `lon` entry and vice versa — the
entries of keys absent from B are not passed through unchanged. -/
theorem intersect_changes_entry_counterexample :
    mkCoordinate [("lon", .one (uniN 7 8 3)), ("lat", .one (uniN 7 8 3)),
        ("lat_lon", .many [uniN 0 1 3, uniN 5 6 3])] = .ok aFreak
    ∧ mkCoordinate [("time", .one (uniN 0 1 2))] = .ok bTime
    ∧ aFreak.intersect bTime 1
        = .ok { dims_map := [("lat", "lat_lon"), ("lon", "lat_lon")],
                coords := [("lat", uniN 5 6 3), ("lon", uniN 0 1 3)] }
    ∧ dictFind? bTime.coords "lat" = none
    ∧ dictFind? aFreak.coords "lat" = some (uniN 0 1 3)
    ∧ dictFind? ([("lat", uniN 5 6 3), ("lon", uniN 0 1 3)]
        : List (String × Coord1d)) "lat" = some (uniN 5 6 3)
    ∧ uniN 5 6 3 ≠ uniN 0 1 3 := by
  refine ⟨rfl, rfl, rfl, rfl, rfl, rfl, ?_⟩
  simp only [uniN, ne_eq, Coord1d.uniform.injEq, UniformGridCoord.mk.injEq, not_and]
  intro h
  exact absurd h (by norm_num)

/-- C8 (amended): provided A's `dims_map` is in constructor normal form
with no dimension name appearing under two different stored keys (the
blocks of its stored keys' components, with unique component names, which
the silent duplicate-merging of the constructor can violate), a successful
`A.intersect(B)` returns a `Coordinate` with A's key order (`dims`), the
same unstacked keys in the same order, and, for every key absent from B,
an unchanged coordinate entry. -/
theorem intersect_key_order_passthrough :
    ∀ (a b : Coordinate) (pad : ℤ) (r : Coordinate) (tops : List String),
      a.dims_map = tops.flatMap dimsOfKey →
      (a.dims_map.map Prod.fst).Nodup →
      a.coords.map Prod.fst = a.dims_map.map Prod.fst →
      a.intersect b pad = .ok r →
      r.dims = a.dims
      ∧ r.coords.map Prod.fst = a.coords.map Prod.fst
      ∧ (∀ k, dictFind? b.coords k = none →
          dictFind? r.coords k = dictFind? a.coords k) := by
  intro a b pad r tops htops hnd hal h
  have hndK : ((([] : List (String × Coord1d)) ++ a.coords).map Prod.fst).Nodup := by
    simpa [hal] using hnd
  rw [Coordinate.intersect] at h
  cases hloop : intersectLoop b pad a.coords [] with
  | error e => rw [hloop] at h; cases h
  | ok new =>
    rw [hloop] at h
    dsimp only at h
    have hknew : new.map Prod.fst = a.coords.map Prod.fst := by
      have := intersectLoop_keys b pad a.coords [] new hloop hndK
      simpa using this
    have hlook : ∀ k, dictFind? b.coords k = none →
        dictFind? new k = dictFind? a.coords k := by
      intro k hk
      have := intersectLoop_lookup b pad a.coords [] new hloop hndK k hk
      simpa using this
    have htopsnd : tops.Nodup := tops_nodup (htops ▸ hnd)
    have hflatnd : (tops.flatMap partsOf).Nodup := by
      rw [← flat_keys, ← htops]
      exact hnd
    have hfp_keys : tops.flatMap partsOf = new.map Prod.fst := by
      rw [← flat_keys, ← htops, ← hal, ← hknew]
    have hstack : stack_dict a.dims_map new
        = .ok (tops.map (fun t => (t, topSpec new t))) := by
      rw [stack_dict, htops]
      refine stack_dict_spec new tops [] (by simpa using htopsnd) ?_
      intro t ht p hp
      rw [← hfp_keys]
      exact List.mem_flatMap.mpr ⟨t, ht, hp⟩
    rw [hstack] at h
    dsimp only at h
    have hkeys_st : (tops.map (fun t => (t, topSpec new t))).map Prod.fst = tops := by
      simp [Function.comp_def]
    have hnd_st : ((tops.map (fun t => (t, topSpec new t))).map Prod.fst).Nodup := by
      rw [hkeys_st]; exact htopsnd
    have hid : dictOfList (tops.map (fun t => (t, topSpec new t)))
        = tops.map (fun t => (t, topSpec new t)) := dictOfList_nodup_id _ hnd_st
    have hdm' : get_dims_map tops = tops.flatMap dimsOfKey := by
      rw [get_dims_map]
      have := get_dims_map_loop_flat tops [] (by simpa using hflatnd)
      simpa using this
    have hdmK : ∀ k ∈ (tops.flatMap dimsOfKey).map Prod.fst, hasUnderscore k = false := by
      rw [flat_keys]
      exact flat_parts_no_underscore tops
    have hplain : ∀ t ∈ tops, hasUnderscore t = false
        → t ∈ (tops.flatMap dimsOfKey).map Prod.fst := by
      intro t ht hu
      rw [flat_keys]
      refine List.mem_flatMap.mpr ⟨t, ht, ?_⟩
      rw [partsOf, if_neg (by simp [hu])]
      simp
    have hunstack : unstack_dict (tops.flatMap dimsOfKey)
        (tops.map (fun t => (t, topSpec new t))) = .ok new := by
      rw [unstack_dict]
      have := unstack_loop_spec (tops.flatMap dimsOfKey) new hdmK tops []
        (by simpa using hflatnd) hplain
      rw [this]
      rw [hfp_keys]
      have hndnew : (new.map Prod.fst).Nodup := by
        rw [hknew, hal]; exact hnd
      rw [assoc_rebuild new hndnew]
      simp
    simp only [mkCoordinate] at h
    rw [hid] at h
    rw [hkeys_st, hdm', hunstack] at h
    dsimp only at h
    cases hval : validateLoop (tops.flatMap dimsOfKey) new [] [] with
    | error e => rw [hval] at h; cases h
    | ok u =>
      cases u
      rw [hval] at h
      dsimp only at h
      cases h
      refine ⟨?_, hknew, hlook⟩
      show dedupLoop ((tops.flatMap dimsOfKey).map Prod.snd) [] = a.dims
      rw [Coordinate.dims, htops]

/-- C8 witness: `intersect_key_order_passthrough` instantiated on
`Coordinate(lat_lon=..., time=...)` intersected with `Coordinate(alt=...)`
(no shared key). -/
theorem intersect_key_order_passthrough_witness :
    (Coordinate.mk [("lat", "lat_lon"), ("lon", "lat_lon"), ("time", "time")]
        [("lat", uniN 0 1 3), ("lon", uniN 5 6 3), ("time", uniN 0 1 2)]).dims
      = latLonTime.dims
    ∧ dictFind? (Coordinate.mk [("lat", "lat_lon"), ("lon", "lat_lon"), ("time", "time")]
        [("lat", uniN 0 1 3), ("lon", uniN 5 6 3), ("time", uniN 0 1 2)]).coords "lat"
      = dictFind? latLonTime.coords "lat" := by
  have h := intersect_key_order_passthrough latLonTime bAlt 1
    (Coordinate.mk [("lat", "lat_lon"), ("lon", "lat_lon"), ("time", "time")]
        [("lat", uniN 0 1 3), ("lon", uniN 5 6 3), ("time", uniN 0 1 2)])
    ["lat_lon", "time"] rfl (by decide) rfl rfl
  exact ⟨h.1, h.2.2 "lat" rfl⟩

end Podpac
